import Mathlib

/-!
Verification of the candidate ranking / confidence-refinement pipeline of
`geoguessr_locate` (file `geoguessr_locate/analysis.py`), against its
natural-language specification.

The Python code is shallowly embedded: Python floats become `ℚ` (every
constant in the pipeline is a decimal literal and the claims are about the
exact decimal arithmetic the code performs), Python `Optional[T]` becomes
`Option T`, and Python truthiness on strings / lists is made explicit
(`strTruthy`, `listTruthy`).  The external collaborators — the reverse and
forward geocoders (network calls in `geocode.py`), the regex-based
POI-query extractor, and the transcendental `haversine_distance` — are
parameters of the embedded functions, so every theorem quantifies over
their behaviour.
-/

namespace GeoLocate

/-- `Cues` from `types.py`: optional structured visual observations. -/
structure Cues where
  driving_side : Option String
  languages_seen : Option (List String)
  signage_features : Option String
  road_markings : Option String
  vegetation_climate : Option String
  electrical_infrastructure : Option String
  other_cues : Option String
deriving Repr, DecidableEq, Inhabited

/-- `Candidate` from `types.py`: one location guess. -/
structure Candidate where
  rank : Int
  confidence : ℚ
  country_code : Option String
  country_name : Option String
  admin1 : Option String
  admin2 : Option String
  nearest_city : Option String
  latitude : Option ℚ
  longitude : Option ℚ
  confidence_radius_km : Option ℚ
  reasons : Option String
  cues : Option Cues
deriving Repr, DecidableEq, Inhabited

/-- `ModelOutput` from `types.py`. -/
structure ModelOutput where
  primary_guess : Candidate
  alternatives : List Candidate
deriving Repr, DecidableEq, Inhabited

/-- `FinalResult` from `types.py`. -/
structure FinalResult where
  image_path : String
  model : String
  primary_guess : Candidate
  top_k : List Candidate
deriving Repr, DecidableEq, Inhabited

/-- `Place` from `geocode.py` (result of a reverse-geocode lookup). -/
structure Place where
  country : Option String
  state : Option String
  county : Option String
  city : Option String
  display_name : Option String
deriving Repr, DecidableEq, Inhabited

/-- `SearchPlace` from `geocode.py` (result of a forward-geocode search). -/
structure SearchPlace where
  lat : ℚ
  lon : ℚ
  country : Option String
  state : Option String
  county : Option String
  city : Option String
  display_name : Option String
deriving Repr, DecidableEq, Inhabited

/-- Python truthiness of an `Optional[str]`: `None` and `""` are falsy. -/
def strTruthy : Option String → Bool
  | none => false
  | some s => !s.isEmpty

/-- Python truthiness of an `Optional[list]`: `None` and `[]` are falsy. -/
def listTruthy {α : Type} : Option (List α) → Bool
  | none => false
  | some l => !l.isEmpty

/-- Python's `str.lower()` (per-character; the pipeline only lower-cases
ASCII country codes, sides and tokens). -/
def strLower (s : String) : String := ⟨s.data.map Char.toLower⟩

/-- Python's `str.upper()` (per-character). -/
def strUpper (s : String) : String := ⟨s.data.map Char.toUpper⟩

/-- Python's `str.strip()`: drop leading and trailing whitespace. -/
def strTrim (s : String) : String :=
  ⟨((s.data.dropWhile Char.isWhitespace).reverse.dropWhile Char.isWhitespace).reverse⟩

/-- `len(cues.languages_seen)` as a rational (0 when absent). -/
def langLen (o : Option (List String)) : ℚ :=
  ((o.getD []).length : ℚ)

/-- The `score` accumulated by `calculate_cue_score` (`analysis.py`
lines 27-61): note the language dimension adds
`len(languages_seen) * 0.15` with no cap. -/
def cueScoreNum (cues : Cues) : ℚ :=
  (if listTruthy cues.languages_seen then langLen cues.languages_seen * 0.15 else 0)
  + (if strTruthy cues.driving_side then 0.1 else 0)
  + (if strTruthy cues.road_markings then 0.15 else 0)
  + (if strTruthy cues.signage_features then 0.15 else 0)
  + (if strTruthy cues.vegetation_climate then 0.1 else 0)
  + (if strTruthy cues.electrical_infrastructure then 0.1 else 0)
  + (if strTruthy cues.other_cues then 0.05 else 0)

/-- The `total_weight` accumulated by `calculate_cue_score`: the language
dimension contributes the fixed `0.15 * 3`. -/
def cueScoreDen (cues : Cues) : ℚ :=
  (if listTruthy cues.languages_seen then 0.15 * 3 else 0)
  + (if strTruthy cues.driving_side then 0.1 else 0)
  + (if strTruthy cues.road_markings then 0.15 else 0)
  + (if strTruthy cues.signage_features then 0.15 else 0)
  + (if strTruthy cues.vegetation_climate then 0.1 else 0)
  + (if strTruthy cues.electrical_infrastructure then 0.1 else 0)
  + (if strTruthy cues.other_cues then 0.05 else 0)

/-- `calculate_cue_score` from `analysis.py` lines 22-64: accumulate a
weighted completeness score over the seven cue dimensions and normalize
by the accumulated maximum weight. -/
def calculate_cue_score (cuesOpt : Option Cues) : ℚ :=
  match cuesOpt with
  | none => 0
  | some cues =>
    if cueScoreDen cues > 0 then cueScoreNum cues / cueScoreDen cues else 0

/-- The location-specificity numerator of `refine_confidence`
(`analysis.py` lines 74-88); the accumulated weight is the same sum. -/
def locationScore (c : Candidate) : ℚ :=
  (if strTruthy c.country_code then 0.2 else 0)
  + (if strTruthy c.admin1 then 0.3 else 0)
  + (if strTruthy c.admin2 then 0.2 else 0)
  + (if strTruthy c.nearest_city then 0.3 else 0)

/-- `refine_confidence` from `analysis.py` lines 66-99: weighted blend of
the original confidence, the cue score and the location specificity,
capped at 1. -/
def refine_confidence (c : Candidate) : ℚ :=
  let base_confidence := c.confidence
  let cue_score := calculate_cue_score c.cues
  let location_weight := locationScore c
  let location_score := if location_weight > 0 then locationScore c / location_weight else 0
  min 1 (base_confidence * 0.4 + cue_score * 0.3 + location_score * 0.3)

/-- `LEFT_DRIVING` from `analysis.py` lines 104-115. -/
def LEFT_DRIVING : List String :=
  ["GB", "IE", "CY", "MT",
   "AU", "NZ", "FJ", "PG", "SB", "TL",
   "JP", "TH", "ID", "LK", "SG", "MY", "IN", "BD", "PK", "NP", "BN", "HK", "MO",
   "ZA", "KE", "UG", "TZ", "BW", "NA", "ZM", "ZW", "LS", "SZ", "MU",
   "GY", "SR", "TT", "JM", "BB", "BS", "BM", "KY", "AG", "DM", "GD", "LC", "VC", "TC", "VG"]

/-- `MPH_RIGHT` from `analysis.py` lines 119-125. -/
def MPH_RIGHT : List String := ["US", "BZ", "LR", "GU", "PR"]

/-- `MPH_LEFT` from `analysis.py` lines 126-128. -/
def MPH_LEFT : List String :=
  ["GB", "BS", "BB", "BM", "KY", "JM", "TT", "AG", "DM", "GD", "LC", "VC", "TC", "VG"]

/-- `MPH_ALL = MPH_RIGHT | MPH_LEFT` from `analysis.py` line 129. -/
def MPH_ALL : List String := MPH_RIGHT ++ MPH_LEFT

/-- `_expected_driving_side` from `analysis.py` lines 132-141. -/
def expected_driving_side (country_code : Option String) : Option String :=
  if !strTruthy country_code then none
  else
    let cc := strUpper (country_code.getD "")
    if LEFT_DRIVING.contains cc then some "left"
    else if cc.length = 2 then some "right"
    else none

/-- The `side` read in `contradiction_penalty` (`candidate.cues.driving_side
if candidate.cues else None`). -/
def observedSide (c : Candidate) : Option String :=
  match c.cues with
  | some cues => cues.driving_side
  | none => none

/-- `contradiction_penalty` from `analysis.py` lines 144-156: a fixed 0.08
penalty when the observed driving side and the expected driving side are
both truthy and the strings differ (verbatim comparison). -/
def contradiction_penalty (c : Candidate) : ℚ :=
  let side := observedSide c
  let expected := expected_driving_side c.country_code
  if strTruthy side ∧ expected.isSome ∧ side ≠ expected then 0.08 else 0

/-- Boolean test that `p` is a leading segment of `l`. -/
def listPref : List Char → List Char → Bool
  | [], _ => true
  | _ :: _, [] => false
  | a :: p, b :: l => a = b && listPref p l

/-- Boolean test that `p` occurs contiguously inside `l` (Python `in`). -/
def listSub (p : List Char) : List Char → Bool
  | [] => p.isEmpty
  | b :: t => listPref p (b :: t) || listSub p t

/-- Python's `pat in s` substring test. -/
def strContainsSub (pat s : String) : Bool := listSub pat.data s.data

/-- Python's `txt.replace(" ", "")`. -/
def removeSpaces (s : String) : String := ⟨s.data.filter (· ≠ ' ')⟩

/-- `_units_from_text` from `analysis.py` lines 159-169: detect MPH / KM-H
tokens in lower-cased, space-stripped free text. -/
def units_from_text (txt : Option String) : Bool × Bool :=
  match txt with
  | none => (false, false)
  | some txt =>
    if txt.isEmpty then (false, false)
    else
      let t := removeSpaces (strLower txt)
      let mph := strContainsSub "mph" t || strContainsSub "mi/h" t
        || strContainsSub "milesperhour" t
      let kmh := strContainsSub "km/h" t || strContainsSub "kmh" t
        || strContainsSub "kph" t || strContainsSub "kilometersperhour" t
      (mph, kmh)

/-- The `(mph, kmh)` pair accumulated over the three free-text pieces in
`speed_units_adjustment` (`analysis.py` lines 180-189). -/
def detectedUnits (cues : Cues) : Bool × Bool :=
  let pieces := [cues.signage_features.getD "", cues.other_cues.getD "",
    cues.road_markings.getD ""]
  pieces.foldl (fun acc p =>
    let mk := units_from_text (some p)
    (acc.1 || mk.1, acc.2 || mk.2)) (false, false)

/-- The lower-cased observed side used in `speed_units_adjustment`
(`(cues.driving_side or "").lower() if cues.driving_side else None`). -/
def loweredSide (cues : Cues) : Option String :=
  match cues.driving_side with
  | some s => if s.isEmpty then none else some (strLower s)
  | none => none

/-- `speed_units_adjustment` from `analysis.py` lines 172-212. -/
def speed_units_adjustment (c : Candidate) : ℚ :=
  match c.cues with
  | none => 0
  | some cues =>
    let mk := detectedUnits cues
    let mph := mk.1
    let kmh := mk.2
    if !mph && !kmh then 0
    else
      let cc := strUpper (c.country_code.getD "")
      let side := loweredSide cues
      let boost : ℚ := 0
      let boost :=
        if mph then
          if (MPH_RIGHT.contains cc ∧ (side = none ∨ side = some "right"))
              ∨ (MPH_LEFT.contains cc ∧ (side = none ∨ side = some "left")) then
            boost + 0.05
          else if ¬cc.isEmpty ∧ ¬MPH_ALL.contains cc then boost - 0.04
          else boost
        else boost
      let boost :=
        if kmh then
          if cc = "US" then boost - 0.05
          else if ¬cc.isEmpty ∧ ¬MPH_RIGHT.contains cc then boost + 0.02
          else boost
        else boost
      boost

/-- `radius_adjustment` from `analysis.py` lines 215-230. -/
def radius_adjustment (c : Candidate) : ℚ :=
  match c.confidence_radius_km with
  | none => 0
  | some r =>
    if r ≤ 10 then 0.05
    else if r ≤ 30 then 0.03
    else if r ≤ 80 then 0.01
    else if r ≥ 500 then -0.05
    else if r ≥ 200 then -0.02
    else 0

/-- `_normalize` from `analysis.py` lines 233-234: strip and lower-case. -/
def pyNormalize (s : Option String) : Option String :=
  s.map (fun x => strLower (strTrim x))

/-- Python `a or b` for optional strings used in field filling
(`a` kept when truthy, else `b`). -/
def orFill (a b : Option String) : Option String :=
  if strTruthy a then a else b

/-- Fill `country_name` from the place when the candidate lacks it
(`analysis.py` lines 249-250). -/
def fillCountry (place : Place) (c : Candidate) : Candidate :=
  if ¬strTruthy c.country_name ∧ strTruthy place.country then
    { c with country_name := place.country } else c

/-- Fill `admin1` from the place when the candidate lacks it
(`analysis.py` lines 251-252). -/
def fillAdmin1 (place : Place) (c : Candidate) : Candidate :=
  if ¬strTruthy c.admin1 ∧ strTruthy place.state then
    { c with admin1 := place.state } else c

/-- Fill `admin2` from the place when the candidate lacks it
(`analysis.py` lines 253-254). -/
def fillAdmin2 (place : Place) (c : Candidate) : Candidate :=
  if ¬strTruthy c.admin2 ∧ strTruthy place.county then
    { c with admin2 := place.county } else c

/-- Fill `nearest_city` from the place when the candidate lacks it
(`analysis.py` lines 255-256). -/
def fillCity (place : Place) (c : Candidate) : Candidate :=
  if ¬strTruthy c.nearest_city ∧ strTruthy place.city then
    { c with nearest_city := place.city } else c

/-- The country-comparison increment of `_geocode_consistency_adjust`
(`analysis.py` lines 260-264), evaluated on the already-filled
candidate `r`. -/
def geoBoostCountry (place : Place) (r : Candidate) : ℚ :=
  if strTruthy r.country_name ∧ strTruthy place.country then
    if pyNormalize r.country_name = pyNormalize place.country then 0.04 else -0.06
  else 0

/-- The admin1-comparison increment of `_geocode_consistency_adjust`
(`analysis.py` lines 265-270), evaluated on the already-filled
candidate `r`. -/
def geoBoostAdmin (place : Place) (r : Candidate) : ℚ :=
  if strTruthy r.admin1 ∧ strTruthy place.state then
    if pyNormalize r.admin1 = pyNormalize place.state then 0.02
    else if strTruthy r.country_name ∧ strTruthy place.country
        ∧ pyNormalize r.country_name = pyNormalize place.country then -0.02
    else 0
  else 0

/-- `_geocode_consistency_adjust` from `analysis.py` lines 237-271,
parameterized by the reverse-geocode collaborator.  Returns the
candidate after field filling together with the confidence adjustment.
The four fills touch pairwise distinct fields and each condition reads a
field no earlier fill writes, and the two `boost` increments read only
candidate/place fields, so the sequential Python statements are exactly
this composition. -/
def geocode_consistency_adjust (reverse : ℚ → ℚ → Option Place) (c : Candidate) :
    Candidate × ℚ :=
  match c.latitude, c.longitude with
  | some lat, some lon =>
    match reverse lat lon with
    | none => (c, 0)
    | some place =>
      let c := fillCountry place c
      let c := fillAdmin1 place c
      let c := fillAdmin2 place c
      let c := fillCity place c
      let boost : ℚ := 0
      let boost := boost + geoBoostCountry place c
      let boost := boost + geoBoostAdmin place c
      (c, boost)
  | _, _ => (c, 0)

/-- The coordinate-bearing candidates with their indices
(`analysis.py` lines 279-281). -/
def coordsOf (candidates : List Candidate) : List (Nat × Candidate) :=
  candidates.enum.filter (fun ic => ic.2.latitude.isSome && ic.2.longitude.isSome)

/-- The `d <= 150.0` test of `_cluster_adjustments`, on the
`latitude or 0.0` / `longitude or 0.0` arguments the source passes
(both coordinates are present for clustered candidates, and Python's
`x or 0.0` maps `0.0` to `0.0`, so `getD 0` is exact). -/
def closePair (dist : ℚ → ℚ → ℚ → ℚ → ℚ) (a b : Candidate) : Bool :=
  dist (a.latitude.getD 0) (a.longitude.getD 0) (b.latitude.getD 0) (b.longitude.getD 0) ≤ 150

/-- All ordered pairs `(l[a], l[b])` with `a < b`, as traversed by the
nested loops of `_cluster_adjustments` (`analysis.py` lines 287-294). -/
def pairList {α : Type} : List α → List (α × α)
  | [] => []
  | x :: xs => xs.map (fun y => (x, y)) ++ pairList xs

/-- The neighbor count accumulated for index `i` by the pair loop of
`_cluster_adjustments`: each within-150km pair increments both of its
endpoints, so index `i` ends with the number of qualifying pairs that
involve it. -/
def neighborCount (dist : ℚ → ℚ → ℚ → ℚ → ℚ) (coords : List (Nat × Candidate))
    (i : Nat) : Nat :=
  ((pairList coords).filter
    (fun p => closePair dist p.1.2 p.2.2 && (p.1.1 = i || p.2.1 = i))).length

/-- The adjustment chosen for a clustered index from its neighbor count
(`analysis.py` lines 296-303): `+0.04` for at least two neighbors,
`+0.02` for exactly one, `-0.01` otherwise. -/
def clusterVal (dist : ℚ → ℚ → ℚ → ℚ → ℚ) (coords : List (Nat × Candidate))
    (i : Nat) : ℚ :=
  if neighborCount dist coords i ≥ 2 then 0.04
  else if neighborCount dist coords i = 1 then 0.02
  else -0.01

/-- `_cluster_adjustments` (continued): the index-keyed adjustment list,
in coordinate-candidate order; empty when fewer than two candidates have
coordinates. -/
def cluster_adjustments (dist : ℚ → ℚ → ℚ → ℚ → ℚ) (candidates : List Candidate) :
    List (Nat × ℚ) :=
  if (coordsOf candidates).length < 2 then []
  else (coordsOf candidates).map (fun ic =>
    (ic.1, clusterVal dist (coordsOf candidates) ic.1))

/-- The application loop `for idx, adj in cluster_adj.items(): ...`
(`analysis.py` lines 493-495): every keyed index gets its confidence
clamp-added. -/
def applyClusterAdj (adj : List (Nat × ℚ)) (l : List Candidate) : List Candidate :=
  l.enum.map (fun ic =>
    match adj.lookup ic.1 with
    | some a => { ic.2 with confidence := min 1 (max 0 (ic.2.confidence + a)) }
    | none => ic.2)

/-- The per-result score of `_poi_refine_candidate`
(`analysis.py` lines 382-411). -/
def poiScore (dist : ℚ → ℚ → ℚ → ℚ → ℚ) (c : Candidate) (bias : Option (ℚ × ℚ))
    (r : SearchPlace) : ℚ :=
  let s : ℚ := 0
  let s :=
    if strTruthy c.country_name ∧ strTruthy r.country then
      if pyNormalize c.country_name = pyNormalize r.country then s + 2 else s - 3
    else s
  let s :=
    if strTruthy c.admin1 ∧ strTruthy r.state then
      if pyNormalize c.admin1 = pyNormalize r.state then s + 1 else s - 1
    else s
  let s :=
    match bias with
    | some b =>
      let d := dist b.1 b.2 r.lat r.lon
      if d ≤ 10 then s + 3
      else if d ≤ 30 then s + 1.5
      else if d ≤ 80 then s + 0.5
      else s - 1.5
    | none => s
  let s := if strTruthy r.city then s + 0.3 else s
  let s :=
    if strTruthy r.display_name then
      s + max 0 (0.6 - min 0.6 (((r.display_name.getD "").length : ℚ) / 200))
    else s
  s

/-- One step of the best-result tracking loop of `_poi_refine_candidate`
(replace the tracked pair exactly when the new score is strictly
greater). -/
def poiFold (f : SearchPlace → ℚ) (acc : Option SearchPlace × ℚ) (r : SearchPlace) :
    Option SearchPlace × ℚ :=
  let s := f r
  if acc.2 < s then (some r, s) else acc

/-- The best-result tracking loop of `_poi_refine_candidate`
(`best = None`, `best_score = -1e9`), folded over the concatenation of
all query results. -/
def bestResult (dist : ℚ → ℚ → ℚ → ℚ → ℚ) (c : Candidate) (bias : Option (ℚ × ℚ))
    (results : List SearchPlace) : Option SearchPlace × ℚ :=
  results.foldl (poiFold (poiScore dist c bias)) (none, -1000000000)

/-- The type of the forward-geocode collaborator
(`forward_geocode(q, countrycodes=..., bias=..., viewbox_km=..., limit=...)`). -/
def ForwardGeo : Type :=
  String → Option String → Option (ℚ × ℚ) → Option ℚ → Nat → List SearchPlace

/-- The `bias` of `_poi_refine_candidate` (`analysis.py` lines 365-367). -/
def poiBias (c : Candidate) : Option (ℚ × ℚ) :=
  match c.latitude, c.longitude with
  | some la, some lo => some (la, lo)
  | _, _ => none

/-- The `countrycodes` constraint of `_poi_refine_candidate`
(`analysis.py` lines 363-364): the lower-cased country code when truthy,
2 letters long and biasing is enabled. -/
def poiCountrycodes (cache_country_bias : Bool) (c : Candidate) : Option String :=
  let ccRaw := strLower (c.country_code.getD "")
  let cc : Option String := if ccRaw.isEmpty then none else some ccRaw
  match cc with
  | some s => if cache_country_bias ∧ s.length = 2 then some s else none
  | none => none

/-- All forward-geocode results over the extracted queries, in loop order
(`analysis.py` lines 371-380; empty result lists contribute nothing). -/
def poiAllResults (forward : ForwardGeo) (cache_country_bias : Bool) (c : Candidate)
    (queries : List String) : List SearchPlace :=
  queries.flatMap (fun q =>
    forward q (poiCountrycodes cache_country_bias c) (poiBias c)
      (if (poiBias c).isSome then some 100 else none) 5)

/-- `candidate.nearest_city = candidate.nearest_city or best.city` under
`if best.city:` (`analysis.py` lines 423-424). -/
def adoptCity (b : SearchPlace) (c : Candidate) : Candidate :=
  if strTruthy b.city then { c with nearest_city := orFill c.nearest_city b.city } else c

/-- `candidate.admin1 = candidate.admin1 or best.state` under
`if best.state:` (`analysis.py` lines 425-426). -/
def adoptAdmin1 (b : SearchPlace) (c : Candidate) : Candidate :=
  if strTruthy b.state then { c with admin1 := orFill c.admin1 b.state } else c

/-- `candidate.country_name = candidate.country_name or best.country` under
`if best.country:` (`analysis.py` lines 427-428). -/
def adoptCountry (b : SearchPlace) (c : Candidate) : Candidate :=
  if strTruthy b.country then
    { c with country_name := orFill c.country_name b.country } else c

/-- `old_r = candidate.confidence_radius_km or 100.0` (`analysis.py`
line 430): Python truthiness maps both `None` and `0.0` to the 100km
default. -/
def oldRadius (c : Candidate) : ℚ :=
  match c.confidence_radius_km with
  | some r => if r = 0 then 100 else r
  | none => 100

/-- The whole adoption block of `_poi_refine_candidate` (`analysis.py`
lines 420-431): overwrite coordinates, fill city/admin1/country only when
missing, and tighten the confidence radius to `min(old_r, 5)`. -/
def adoptPoi (b : SearchPlace) (c : Candidate) : Candidate :=
  let c := { c with latitude := some b.lat, longitude := some b.lon }
  let c := adoptCity b c
  let c := adoptAdmin1 b c
  let c := adoptCountry b c
  { c with confidence_radius_km := some (min (oldRadius c) 5) }

/-- `_poi_refine_candidate` from `analysis.py` lines 353-433.  The
regex-based `_extract_poi_queries` result is passed in as `queries`, and
the forward geocoder and `haversine_distance` are parameters.  Returns
the (possibly adopted) candidate and the reported confidence
adjustment. -/
def poi_refine_candidate (forward : ForwardGeo) (dist : ℚ → ℚ → ℚ → ℚ → ℚ)
    (queries : List String) (cache_country_bias : Bool) (c : Candidate) :
    Candidate × ℚ :=
  if queries.isEmpty then (c, 0)
  else
    let best := bestResult dist c (poiBias c)
      (poiAllResults forward cache_country_bias c queries)
    match best.1 with
    | none => (c, 0)
    | some b =>
      if best.2 < 1 then (c, 0)
      else (adoptPoi b c, 0.08)

/-- Count of occurrences of `s` in `l` (`collections.Counter` tally). -/
def countOcc (l : List String) (s : String) : Nat := (l.filter (· = s)).length

/-- `Counter(l).most_common(1)[0][0] if l else None`: the value with the
highest multiplicity, first-seen order breaking ties (CPython's
`most_common` is a stable descending sort of insertion-ordered items). -/
def mostCommon (l : List String) : Option String :=
  let uniq := l.foldl (fun acc s => if acc.contains s then acc else acc ++ [s]) []
  (uniq.foldl (fun (acc : Option (String × Nat)) s =>
    let k := countOcc l s
    match acc with
    | none => some (s, k)
    | some bk => if k > bk.2 then some (s, k) else some bk) none).map (·.1)

/-- The truthy `p.country` entries of the reverse-geocoded places
(`[p.country for p in places if p.country]`). -/
def truthyCountries (places : List Place) : List String :=
  places.filterMap (fun p => if strTruthy p.country then p.country else none)

/-- The truthy `p.state` entries of the reverse-geocoded places. -/
def truthyStates (places : List Place) : List String :=
  places.filterMap (fun p => if strTruthy p.state then p.state else none)

/-- The per-candidate boost of `_consistency_boost_via_reverse_geocode`
(`analysis.py` lines 461-468): `+0.05` on exact majority-country match,
`+0.03` on exact majority-admin1 match, both gated by truthiness. -/
def majorityBoost (majority_country majority_admin : Option String) (c : Candidate) : ℚ :=
  (if strTruthy majority_country ∧ strTruthy c.country_name
      ∧ c.country_name = majority_country then (0.05 : ℚ) else 0)
  + (if strTruthy majority_admin ∧ strTruthy c.admin1
      ∧ c.admin1 = majority_admin then (0.03 : ℚ) else 0)

/-- The reverse-geocoded places of the top-3 candidates
(`analysis.py` lines 444-450). -/
def majorityPlaces (reverse : ℚ → ℚ → Option Place) (l : List Candidate) : List Place :=
  (l.take 3).filterMap (fun c =>
    match c.latitude, c.longitude with
    | some la, some lo => reverse la lo
    | _, _ => none)

/-- One candidate updated by the majority boost (`analysis.py`
lines 461-468): `min(1.0, confidence + boost)` exactly when the boost is
nonzero. -/
def boostOne (mc ma : Option String) (c : Candidate) : Candidate :=
  if majorityBoost mc ma c ≠ 0 then
    { c with confidence := min 1 (c.confidence + majorityBoost mc ma c) } else c

/-- `_consistency_boost_via_reverse_geocode` from `analysis.py`
lines 436-468, parameterized by the reverse geocoder. -/
def consistency_boost_via_reverse_geocode (reverse : ℚ → ℚ → Option Place)
    (do_reverse : Bool) (l : List Candidate) : List Candidate :=
  if !do_reverse then l
  else if (majorityPlaces reverse l).isEmpty then l
  else if mostCommon (truthyCountries (majorityPlaces reverse l)) = none
      ∧ mostCommon (truthyStates (majorityPlaces reverse l)) = none then l
  else l.map (boostOne (mostCommon (truthyCountries (majorityPlaces reverse l)))
    (mostCommon (truthyStates (majorityPlaces reverse l))))

/-- Step 1a of `rank_and_finalize`: `c.confidence = refine_confidence(c)`
(`analysis.py` line 476). -/
def step1a (c : Candidate) : Candidate :=
  { c with confidence := refine_confidence c }

/-- Step 1b of `rank_and_finalize`: subtract the contradiction penalty,
floored at 0, only when the penalty is nonzero (`analysis.py`
lines 478-480). -/
def step1b (c : Candidate) : Candidate :=
  let pen := contradiction_penalty c
  if pen ≠ 0 then { c with confidence := max 0 (c.confidence - pen) } else c

/-- Step 1c of `rank_and_finalize`: clamp-add the speed-unit and radius
adjustments (`analysis.py` line 482). -/
def step1c (c : Candidate) : Candidate :=
  let conf := min 1 (max 0 (c.confidence + speed_units_adjustment c + radius_adjustment c))
  { c with confidence := conf }

/-- The whole per-candidate step 1 of `rank_and_finalize`
(`analysis.py` lines 475-482). -/
def step1_refine (c : Candidate) : Candidate := step1c (step1b (step1a c))

/-- Apply `f` to the first `n` elements, as Python's in-place mutation of
`all_candidates[:n]` does. -/
def mapFirstN {α : Type} (n : Nat) (f : α → α) (l : List α) : List α :=
  (l.take n).map f ++ l.drop n

/-- The step-2 body (`analysis.py` lines 486-489): reverse-geocode
consistency adjustment, clamp-added when nonzero. -/
def geoStep (reverse : ℚ → ℚ → Option Place) (c : Candidate) : Candidate :=
  let ca := geocode_consistency_adjust reverse c
  if ca.2 ≠ 0 then
    { ca.1 with confidence := min 1 (max 0 (ca.1.confidence + ca.2)) }
  else ca.1

/-- The step-3.5 body (`analysis.py` lines 499-506): POI refinement with
the extracted queries, clamp-added when nonzero. -/
def poiStep (forward : ForwardGeo) (extract : Candidate → List String)
    (dist : ℚ → ℚ → ℚ → ℚ → ℚ) (c : Candidate) : Candidate :=
  let ca := poi_refine_candidate forward dist (extract c) true c
  if ca.2 ≠ 0 then
    { ca.1 with confidence := min 1 (max 0 (ca.1.confidence + ca.2)) }
  else ca.1

/-- Descending stable sort by confidence: Python's stable
`list.sort(key=confidence, reverse=True)` (`analysis.py` lines 509
and 513); `confGE a b` holds when `a`'s confidence is at least `b`'s. -/
def confGE (a b : Candidate) : Prop := b.confidence ≤ a.confidence

instance : DecidableRel confGE := fun a b =>
  inferInstanceAs (Decidable (b.confidence ≤ a.confidence))

instance : IsTotal Candidate confGE :=
  ⟨fun a b => (le_total b.confidence a.confidence).elim Or.inl Or.inr⟩

instance : IsTrans Candidate confGE :=
  ⟨fun _ _ _ hab hbc => le_trans hbc hab⟩

/-- The stable descending sort used by the pipeline. -/
def sortByConfDesc (l : List Candidate) : List Candidate :=
  List.insertionSort confGE l

/-- `for i, c in enumerate(all_candidates, start=1): c.rank = i`
(`analysis.py` lines 516-517). -/
def assignRanksAux (i : Nat) : List Candidate → List Candidate
  | [] => []
  | c :: cs => { c with rank := (i : Int) } :: assignRanksAux (i + 1) cs

/-- Rank reassignment starting from 1. -/
def assignRanks (l : List Candidate) : List Candidate := assignRanksAux 1 l

/-- Number of truthy fields among country/admin1/admin2/city
(`sum(1 for x in [...] if x)`, `analysis.py` lines 524 and 533). -/
def completeness (c : Candidate) : Nat :=
  ([c.country_name, c.admin1, c.admin2, c.nearest_city].filter strTruthy).length

/-- The field filling on the top candidate in the final enrichment
(`analysis.py` lines 527-530). -/
def enrichFill (place : Place) (pg : Candidate) : Candidate :=
  { pg with
    country_name := orFill pg.country_name place.country,
    admin1 := orFill pg.admin1 place.state,
    admin2 := orFill pg.admin2 place.county,
    nearest_city := orFill pg.nearest_city place.city }

/-- `completeness_improvement` (`analysis.py` lines 532-534). -/
def enrichImprovement (place : Place) (pg : Candidate) : ℚ :=
  ((completeness (enrichFill place pg) : ℚ) - (completeness pg : ℚ)) / 4

/-- The top candidate after the final enrichment (`analysis.py`
lines 522-538): fields filled and, when anything was filled, confidence
bumped by `improvement * 0.1`, capped at 1. -/
def enrichTop (place : Place) (pg : Candidate) : Candidate :=
  if enrichImprovement place pg > 0 then
    let conf := min 1 ((enrichFill place pg).confidence + enrichImprovement place pg * 0.1)
    { enrichFill place pg with confidence := conf }
  else enrichFill place pg

/-- The final top-candidate enrichment pass (`analysis.py`
lines 519-538), applied to the ranked list. -/
def step9_enrich (reverse : ℚ → ℚ → Option Place) (do_reverse : Bool)
    (l : List Candidate) : List Candidate :=
  if !do_reverse then l
  else
    match l with
    | [] => []
    | pg :: rest =>
      match pg.latitude, pg.longitude with
      | some la, some lo =>
        match reverse la lo with
        | some place => enrichTop place pg :: rest
        | none => pg :: rest
      | _, _ => pg :: rest

/-- The pipeline state after steps 1-3.5 of `rank_and_finalize`
(`analysis.py` lines 470-506), before the first sort. -/
def pipelinePreSort (reverse : ℚ → ℚ → Option Place) (forward : ForwardGeo)
    (extract : Candidate → List String) (dist : ℚ → ℚ → ℚ → ℚ → ℚ)
    (raw : ModelOutput) (top_k : Nat) (do_reverse : Bool) : List Candidate :=
  let all0 := raw.primary_guess :: raw.alternatives
  let all1 := all0.map step1_refine
  let n := max 3 top_k
  let all2 := if do_reverse then mapFirstN n (geoStep reverse) all1 else all1
  let all3 := applyClusterAdj (cluster_adjustments dist all2) all2
  if do_reverse then mapFirstN n (poiStep forward extract dist) all3 else all3

/-- The pipeline state after the first sort and the majority boost
(`analysis.py` lines 509-512). -/
def pipelineBoosted (reverse : ℚ → ℚ → Option Place) (forward : ForwardGeo)
    (extract : Candidate → List String) (dist : ℚ → ℚ → ℚ → ℚ → ℚ)
    (raw : ModelOutput) (top_k : Nat) (do_reverse : Bool) : List Candidate :=
  consistency_boost_via_reverse_geocode reverse do_reverse
    (sortByConfDesc (pipelinePreSort reverse forward extract dist raw top_k do_reverse))

/-- `rank_and_finalize` from `analysis.py` lines 470-546 (the Python
`top[0]` raises on an empty slice; it is totalized with `headD default`,
and every claim assumes `1 ≤ top_k`, under which the slice is
nonempty). -/
def rank_and_finalize (reverse : ℚ → ℚ → Option Place) (forward : ForwardGeo)
    (extract : Candidate → List String) (dist : ℚ → ℚ → ℚ → ℚ → ℚ)
    (image_path model_name : String) (raw : ModelOutput) (top_k : Nat)
    (do_reverse : Bool) : FinalResult :=
  let all7 := sortByConfDesc
    (pipelineBoosted reverse forward extract dist raw top_k do_reverse)
  let all9 := step9_enrich reverse do_reverse (assignRanks all7)
  let top := all9.take top_k
  { image_path := image_path, model := model_name,
    primary_guess := top.headD default, top_k := top }

/-- The data-model invariant on one candidate: confidence in [0,1]. -/
def ConfIn01 (c : Candidate) : Prop := 0 ≤ c.confidence ∧ c.confidence ≤ 1

/-- The data-model invariant over a whole candidate list. -/
def ConfsIn01 (l : List Candidate) : Prop := ∀ c ∈ l, ConfIn01 c

/-! ### Concrete fixtures used by witnesses and counterexamples -/

/-- Witness fixture: a candidate carrying a country name and a zero
confidence radius. -/
def exPoiCand : Candidate :=
  ⟨1, 1/2, none, some "France", none, none, none, none, none, some 0, none, none⟩

/-- Witness fixture: one forward-geocode search result matching the
candidate's country. -/
def exPoiResult : SearchPlace :=
  ⟨10, 20, some "France", none, none, none, none⟩

/-- Witness fixture: a forward geocoder returning `exPoiResult` for every
query. -/
def exPoiForward : ForwardGeo := fun _ _ _ _ _ => [exPoiResult]

/-- Witness fixture: a trivially symmetric stand-in distance function. -/
def exDist : ℚ → ℚ → ℚ → ℚ → ℚ := fun _ _ _ _ => 0

/-- Witness fixture: a minimal candidate at confidence 1/2. -/
def exCand : Candidate :=
  ⟨1, 1/2, none, none, none, none, none, none, none, none, none, none⟩

/-! ### Helper lemmas -/

/-- An if-then-else of two nonnegative rationals is nonnegative. -/
lemma ite_nonneg (b : Prop) [Decidable b] (x y : ℚ) (hx : 0 ≤ x) (hy : 0 ≤ y) :
    0 ≤ if b then x else y := by
  split <;> assumption

/-- The accumulated cue score is nonnegative. -/
lemma cueScoreNum_nonneg (cues : Cues) : 0 ≤ cueScoreNum cues := by
  unfold cueScoreNum
  have hl : (0 : ℚ) ≤ langLen cues.languages_seen * 0.15 := by
    have : (0 : ℚ) ≤ langLen cues.languages_seen := by
      simp [langLen]
    positivity
  repeat
    refine add_nonneg ?_ (ite_nonneg _ _ _ (by norm_num) le_rfl)
  exact ite_nonneg _ _ _ hl le_rfl

/-- The accumulated cue weight is nonnegative. -/
lemma cueScoreDen_nonneg (cues : Cues) : 0 ≤ cueScoreDen cues := by
  unfold cueScoreDen
  repeat
    refine add_nonneg ?_ (ite_nonneg _ _ _ (by norm_num) le_rfl)
  exact ite_nonneg _ _ _ (by norm_num) le_rfl

/-- The cue score is never negative. -/
lemma calculate_cue_score_nonneg (o : Option Cues) : 0 ≤ calculate_cue_score o := by
  rcases o with _ | cues
  · simp [calculate_cue_score]
  · simp only [calculate_cue_score]
    split
    · exact div_nonneg (cueScoreNum_nonneg cues) (cueScoreDen_nonneg cues)
    · exact le_rfl

/-- Every member of the left-driving reference set is a 2-character code. -/
lemma left_driving_len (cc : String) (hm : cc ∈ LEFT_DRIVING) : cc.length = 2 := by
  fin_cases hm <;> rfl

/-! ### C1 -/

/-- C1: the claim says `calculate_cue_score` always lands in [0,1] because
the language dimension is capped at `min(count,3) * 0.15`.  The code has
no such cap: with four languages and no other cues the numerator is
`4 * 0.15 = 0.6` against the fixed denominator `0.45`, and the function
returns `4/3 > 1`, contradicting its own docstring ("a score (0-1)"). -/
theorem cue_score_overflow_on_four_languages :
    calculate_cue_score
        (some ⟨none, some ["en", "fr", "de", "es"], none, none, none, none, none⟩) = 4 / 3
    ∧ ¬ calculate_cue_score
        (some ⟨none, some ["en", "fr", "de", "es"], none, none, none, none, none⟩) ≤ 1 := by
  constructor <;>
    norm_num [calculate_cue_score, cueScoreNum, cueScoreDen, listTruthy, langLen, strTruthy]

/-! ### C8 -/

/-- C8: the driving-side contradiction penalty is exactly 0.08 and fires
iff the observed side and expected side are both known (truthy) and
differ; the expected side is `"left"` for (upper-cased) codes in the
left-driving set, `"right"` for any other 2-character code, and unknown
when the code is absent/empty or not 2 characters long. -/
theorem contradiction_penalty_iff (c : Candidate) (occ : Option String) :
    (contradiction_penalty c = 0.08 ∨ contradiction_penalty c = 0)
    ∧ (contradiction_penalty c = 0.08 ↔
        strTruthy (observedSide c)
        ∧ (expected_driving_side c.country_code).isSome
        ∧ observedSide c ≠ expected_driving_side c.country_code)
    ∧ (expected_driving_side occ = some "left" ↔
        strTruthy occ ∧ LEFT_DRIVING.contains (strUpper (occ.getD "")))
    ∧ (expected_driving_side occ = some "right" ↔
        strTruthy occ ∧ ¬LEFT_DRIVING.contains (strUpper (occ.getD ""))
          ∧ (strUpper (occ.getD "")).length = 2)
    ∧ (expected_driving_side occ = none ↔
        ¬strTruthy occ ∨ (strUpper (occ.getD "")).length ≠ 2) := by
  have hpen : contradiction_penalty c =
      if strTruthy (observedSide c) ∧ (expected_driving_side c.country_code).isSome
          ∧ observedSide c ≠ expected_driving_side c.country_code then 0.08 else 0 := rfl
  refine ⟨?_, ?_, ?_, ?_, ?_⟩
  · rw [hpen]; split
    · exact Or.inl rfl
    · exact Or.inr rfl
  · rw [hpen]; split
    · rename_i h
      exact ⟨fun _ => h, fun _ => rfl⟩
    · rename_i h
      exact ⟨fun h0 => absurd h0 (by norm_num), fun hcond => absurd hcond h⟩
  · simp only [expected_driving_side]
    by_cases ht : strTruthy occ
    · simp only [ht, Bool.not_true, Bool.false_eq_true, if_false, true_and]
      by_cases hin : strUpper (occ.getD "") ∈ LEFT_DRIVING
      · simp [hin]
      · by_cases hl : (strUpper (occ.getD "")).length = 2 <;> simp [hin, hl]
    · simp [ht]
  · simp only [expected_driving_side]
    by_cases ht : strTruthy occ
    · simp only [ht, Bool.not_true, Bool.false_eq_true, if_false, true_and]
      by_cases hin : strUpper (occ.getD "") ∈ LEFT_DRIVING
      · simp [hin]
      · by_cases hl : (strUpper (occ.getD "")).length = 2 <;> simp [hin, hl]
    · simp [ht]
  · simp only [expected_driving_side]
    by_cases ht : strTruthy occ
    · simp only [ht, Bool.not_true, Bool.false_eq_true, if_false, not_true, false_or]
      by_cases hin : strUpper (occ.getD "") ∈ LEFT_DRIVING
      · have h2 := left_driving_len _ hin
        simp [hin, h2]
      · by_cases hl : (strUpper (occ.getD "")).length = 2 <;> simp [hin, hl]
    · simp [ht]

/-! ### C10 -/

/-- C10: the observed driving side is compared verbatim against the
lower-case expected value, while the country code is upper-cased before
the left-driving lookup: with country code "GB" or "gb", any nonempty
observed side other than exactly "left" (so also "Left" or "LEFT")
incurs the 0.08 penalty. -/
theorem contradiction_penalty_case_sensitive (cc s : String) (cues : Cues)
    (c : Candidate) (hcc : cc = "GB" ∨ cc = "gb") (hc : c.country_code = some cc)
    (hcu : c.cues = some cues) (hs : cues.driving_side = some s)
    (hne : s ≠ "") (hnl : s ≠ "left") :
    contradiction_penalty c = 0.08 := by
  have hexp : expected_driving_side c.country_code = some "left" := by
    rcases hcc with h | h <;> rw [hc, h] <;> decide
  have hobs : observedSide c = some s := by
    simp [observedSide, hcu, hs]
  have htr : strTruthy (observedSide c) := by
    rw [hobs]
    simp only [strTruthy, Bool.not_eq_true']
    cases hh : s.isEmpty
    · rfl
    · exact absurd ((String.isEmpty_iff s).mp hh) hne
  have hne' : observedSide c ≠ expected_driving_side c.country_code := by
    rw [hobs, hexp]
    simpa using hnl
  have hpen : contradiction_penalty c =
      if strTruthy (observedSide c) ∧ (expected_driving_side c.country_code).isSome
          ∧ observedSide c ≠ expected_driving_side c.country_code then 0.08 else 0 := rfl
  rw [hpen, if_pos ⟨htr, by rw [hexp]; rfl, hne'⟩]

/-- C10 witness: a concrete "gb" candidate observed as "Left". -/
theorem contradiction_penalty_case_sensitive_witness :
    contradiction_penalty
      ⟨1, 0.5, some "gb", none, none, none, none, none, none, none, none,
        some ⟨some "Left", none, none, none, none, none, none⟩⟩ = 0.08 :=
  contradiction_penalty_case_sensitive "gb" "Left"
    ⟨some "Left", none, none, none, none, none, none⟩ _
    (Or.inr rfl) rfl rfl rfl (by decide) (by decide)

/-! ### More helper lemmas -/

/-- The location-specificity part of `refine_confidence` is nonnegative. -/
lemma locationScore_nonneg (c : Candidate) : 0 ≤ locationScore c := by
  unfold locationScore
  repeat
    refine add_nonneg ?_ (ite_nonneg _ _ _ (by norm_num) le_rfl)
  exact ite_nonneg _ _ _ (by norm_num) le_rfl

/-- A truthy country code makes the location weight positive. -/
lemma locationScore_pos (c : Candidate) (h : strTruthy c.country_code) :
    0 < locationScore c := by
  unfold locationScore
  rw [if_pos h]
  have h1 : (0:ℚ) ≤ if strTruthy c.admin1 then 0.3 else 0 :=
    ite_nonneg _ _ _ (by norm_num) le_rfl
  have h2 : (0:ℚ) ≤ if strTruthy c.admin2 then 0.2 else 0 :=
    ite_nonneg _ _ _ (by norm_num) le_rfl
  have h3 : (0:ℚ) ≤ if strTruthy c.nearest_city then 0.3 else 0 :=
    ite_nonneg _ _ _ (by norm_num) le_rfl
  norm_num
  linarith

/-- `refine_confidence` never exceeds 1. -/
lemma refine_confidence_le_one (c : Candidate) : refine_confidence c ≤ 1 :=
  min_le_left _ _

/-- `refine_confidence` is nonnegative whenever the incoming confidence is. -/
lemma refine_confidence_nonneg (c : Candidate) (h : 0 ≤ c.confidence) :
    0 ≤ refine_confidence c := by
  unfold refine_confidence
  refine le_min (by norm_num) ?_
  have hcue := calculate_cue_score_nonneg c.cues
  have hloc : (0:ℚ) ≤ if locationScore c > 0 then locationScore c / locationScore c else 0 :=
    ite_nonneg _ _ _ (div_nonneg (locationScore_nonneg c) (locationScore_nonneg c)) le_rfl
  positivity

/-- With a truthy country code the location-specificity factor is exactly 1
(the numerator and the weight accumulate identically), so the refined
confidence is at least 0.3. -/
lemma refine_confidence_ge (c : Candidate) (h : 0 ≤ c.confidence)
    (hcc : strTruthy c.country_code) : 0.3 ≤ refine_confidence c := by
  unfold refine_confidence
  have hw := locationScore_pos c hcc
  refine le_min (by norm_num) ?_
  rw [if_pos hw, div_self (ne_of_gt hw)]
  have hcue := calculate_cue_score_nonneg c.cues
  nlinarith

/-- A nonzero contradiction penalty is exactly 0.08 and forces a truthy
country code. -/
lemma contradiction_penalty_nonzero (c : Candidate)
    (h : contradiction_penalty c ≠ 0) :
    contradiction_penalty c = 0.08 ∧ strTruthy c.country_code := by
  have hpen : contradiction_penalty c =
      if strTruthy (observedSide c) ∧ (expected_driving_side c.country_code).isSome
          ∧ observedSide c ≠ expected_driving_side c.country_code then 0.08 else 0 := rfl
  rw [hpen] at h ⊢
  split at h
  · rename_i hcond
    refine ⟨if_pos hcond, ?_⟩
    by_contra hnt
    have : expected_driving_side c.country_code = none := by
      unfold expected_driving_side
      rw [if_pos (by simpa using hnt)]
    rw [this] at hcond
    simp at hcond
  · exact absurd rfl h

/-- The contradiction penalty is never negative. -/
lemma contradiction_penalty_nonneg (c : Candidate) : 0 ≤ contradiction_penalty c := by
  have hpen : contradiction_penalty c =
      if strTruthy (observedSide c) ∧ (expected_driving_side c.country_code).isSome
          ∧ observedSide c ≠ expected_driving_side c.country_code then 0.08 else 0 := rfl
  rw [hpen]
  exact ite_nonneg _ _ _ (by norm_num) le_rfl

/-- Closed form of the confidence after the whole per-candidate step 1. -/
lemma step1_confidence (c : Candidate) :
    (step1_refine c).confidence =
      if contradiction_penalty c ≠ 0 then
        min 1 (max 0 (max 0 (refine_confidence c - contradiction_penalty c)
          + speed_units_adjustment c + radius_adjustment c))
      else
        min 1 (max 0 (refine_confidence c
          + speed_units_adjustment c + radius_adjustment c)) := by
  unfold step1_refine step1c step1b step1a
  rw [show contradiction_penalty { c with confidence := refine_confidence c }
      = contradiction_penalty c from rfl]
  dsimp only
  by_cases hp : contradiction_penalty c ≠ 0
  · rw [if_pos hp, if_pos hp]
    rfl
  · rw [if_neg hp, if_neg hp]
    rfl

/-! ### C4 -/

/-- C4: the driving-side penalty, the speed-unit adjustment and the radius
adjustment are in effect summed onto the refined confidence with a single
final clamp to [0,1]: the intermediate `max 0` after the penalty never
binds, because a nonzero penalty (0.08) requires a truthy country code,
which already forces the refined confidence to be at least 0.3. -/
theorem consistency_sum_single_clamp (c : Candidate) (h : 0 ≤ c.confidence) :
    (step1_refine c).confidence =
      min 1 (max 0 (refine_confidence c - contradiction_penalty c
        + speed_units_adjustment c + radius_adjustment c)) := by
  rw [step1_confidence]
  split
  · rename_i hp
    obtain ⟨h08, hcc⟩ := contradiction_penalty_nonzero c hp
    have hge := refine_confidence_ge c h hcc
    have : max (0:ℚ) (refine_confidence c - contradiction_penalty c)
        = refine_confidence c - contradiction_penalty c := by
      rw [max_eq_right]
      rw [h08]
      linarith
    rw [this]
  · rename_i hp
    push_neg at hp
    rw [hp, sub_zero]

/-- C4 witness: a GB candidate observed driving right, radius 20km. -/
theorem consistency_sum_single_clamp_witness :
    (0:ℚ) ≤ (0.5:ℚ)
    ∧ (step1_refine
        ⟨1, 0.5, some "GB", none, none, none, none, none, none, some 20, none,
          some ⟨some "right", none, none, none, none, none, none⟩⟩).confidence =
      min 1 (max 0 (refine_confidence
          ⟨1, 0.5, some "GB", none, none, none, none, none, none, some 20, none,
            some ⟨some "right", none, none, none, none, none, none⟩⟩
        - contradiction_penalty
          ⟨1, 0.5, some "GB", none, none, none, none, none, none, some 20, none,
            some ⟨some "right", none, none, none, none, none, none⟩⟩
        + speed_units_adjustment
          ⟨1, 0.5, some "GB", none, none, none, none, none, none, some 20, none,
            some ⟨some "right", none, none, none, none, none, none⟩⟩
        + radius_adjustment
          ⟨1, 0.5, some "GB", none, none, none, none, none, none, some 20, none,
            some ⟨some "right", none, none, none, none, none, none⟩⟩)) :=
  ⟨by norm_num, consistency_sum_single_clamp _ (by norm_num)⟩

/-! ### C7 -/

/-- C7: for a candidate with cues, the speed-unit adjustment is the sum of
an MPH part (+0.05 when the upper-cased country code is in an MPH set
consistent with the lower-cased observed driving side, -0.04 when the
code is nonempty but in neither MPH set, else 0) and a KM/H part (-0.05
exactly for "US", +0.02 for any other nonempty code outside MPH_RIGHT,
else 0); in particular it is 0 when no unit token was detected or the
country code is not truthy. -/
theorem speed_units_adjustment_cases (c : Candidate) (cues : Cues)
    (h : c.cues = some cues) :
    (speed_units_adjustment c =
      (if (detectedUnits cues).1 then
        (if (MPH_RIGHT.contains (strUpper (c.country_code.getD ""))
              ∧ (loweredSide cues = none ∨ loweredSide cues = some "right"))
            ∨ (MPH_LEFT.contains (strUpper (c.country_code.getD ""))
              ∧ (loweredSide cues = none ∨ loweredSide cues = some "left")) then (0.05 : ℚ)
         else if ¬(strUpper (c.country_code.getD "")).isEmpty
              ∧ ¬MPH_ALL.contains (strUpper (c.country_code.getD "")) then -0.04
         else 0)
       else 0)
      + (if (detectedUnits cues).2 then
          (if strUpper (c.country_code.getD "") = "US" then (-0.05 : ℚ)
           else if ¬(strUpper (c.country_code.getD "")).isEmpty
                ∧ ¬MPH_RIGHT.contains (strUpper (c.country_code.getD "")) then 0.02
           else 0)
         else 0))
    ∧ (¬ strTruthy c.country_code → speed_units_adjustment c = 0) := by
  have hmain : speed_units_adjustment c =
      (if (detectedUnits cues).1 then
        (if (MPH_RIGHT.contains (strUpper (c.country_code.getD ""))
              ∧ (loweredSide cues = none ∨ loweredSide cues = some "right"))
            ∨ (MPH_LEFT.contains (strUpper (c.country_code.getD ""))
              ∧ (loweredSide cues = none ∨ loweredSide cues = some "left")) then (0.05 : ℚ)
         else if ¬(strUpper (c.country_code.getD "")).isEmpty
              ∧ ¬MPH_ALL.contains (strUpper (c.country_code.getD "")) then -0.04
         else 0)
       else 0)
      + (if (detectedUnits cues).2 then
          (if strUpper (c.country_code.getD "") = "US" then (-0.05 : ℚ)
           else if ¬(strUpper (c.country_code.getD "")).isEmpty
                ∧ ¬MPH_RIGHT.contains (strUpper (c.country_code.getD "")) then 0.02
           else 0)
         else 0) := by
    simp only [speed_units_adjustment, h]
    rcases hmk : detectedUnits cues with ⟨mph, kmh⟩
    dsimp only
    cases mph <;> cases kmh <;>
      simp only [Bool.not_true, Bool.not_false, Bool.and_self, Bool.true_and,
        Bool.false_and, Bool.and_true, Bool.and_false, if_true, if_false,
        ite_true, ite_false] <;>
      split_ifs <;> first
      | exact (by assumption : False).elim
      | norm_num
  refine ⟨hmain, fun hnt => ?_⟩
  have hcc : c.country_code.getD "" = "" := by
    rcases co : c.country_code with _ | s
    · rfl
    · rw [co] at hnt
      have hse : s.isEmpty = true := by
        cases hh : s.isEmpty
        · exact absurd (by simp [strTruthy, hh]) hnt
        · rfl
      simp [(String.isEmpty_iff s).mp hse]
  rw [hmain, hcc]
  have hemp : (strUpper "").isEmpty = true := rfl
  have hr : MPH_RIGHT.contains (strUpper "") = false := rfl
  have hl : MPH_LEFT.contains (strUpper "") = false := rfl
  have hus : strUpper "" ≠ "US" := by decide
  split_ifs <;> simp_all

/-- C7 witness: a candidate with an "mph" signage cue but no country code
gets adjustment 0. -/
theorem speed_units_adjustment_cases_witness :
    ((⟨1, 0.5, none, none, none, none, none, none, none, none, none,
        some ⟨none, none, some "60 mph", none, none, none, none⟩⟩ : Candidate).cues
      = some ⟨none, none, some "60 mph", none, none, none, none⟩)
    ∧ speed_units_adjustment
        ⟨1, 0.5, none, none, none, none, none, none, none, none, none,
          some ⟨none, none, some "60 mph", none, none, none, none⟩⟩ = 0 :=
  ⟨rfl, (speed_units_adjustment_cases _ _ rfl).2 (by decide)⟩

/-! ### Fill helper lemmas -/

/-- `fillCountry` only writes `country_name`. -/
lemma fillCountry_country_name (p : Place) (c : Candidate) :
    (fillCountry p c).country_name =
      if ¬strTruthy c.country_name ∧ strTruthy p.country then p.country
      else c.country_name := by
  unfold fillCountry
  split <;> rfl

lemma fillCountry_admin1 (p : Place) (c : Candidate) :
    (fillCountry p c).admin1 = c.admin1 := by
  unfold fillCountry
  split <;> rfl

lemma fillCountry_admin2 (p : Place) (c : Candidate) :
    (fillCountry p c).admin2 = c.admin2 := by
  unfold fillCountry
  split <;> rfl

lemma fillCountry_city (p : Place) (c : Candidate) :
    (fillCountry p c).nearest_city = c.nearest_city := by
  unfold fillCountry
  split <;> rfl

lemma fillCountry_confidence (p : Place) (c : Candidate) :
    (fillCountry p c).confidence = c.confidence := by
  unfold fillCountry
  split <;> rfl

/-- `fillAdmin1` only writes `admin1`. -/
lemma fillAdmin1_admin1 (p : Place) (c : Candidate) :
    (fillAdmin1 p c).admin1 =
      if ¬strTruthy c.admin1 ∧ strTruthy p.state then p.state else c.admin1 := by
  unfold fillAdmin1
  split <;> rfl

lemma fillAdmin1_country_name (p : Place) (c : Candidate) :
    (fillAdmin1 p c).country_name = c.country_name := by
  unfold fillAdmin1
  split <;> rfl

lemma fillAdmin1_admin2 (p : Place) (c : Candidate) :
    (fillAdmin1 p c).admin2 = c.admin2 := by
  unfold fillAdmin1
  split <;> rfl

lemma fillAdmin1_city (p : Place) (c : Candidate) :
    (fillAdmin1 p c).nearest_city = c.nearest_city := by
  unfold fillAdmin1
  split <;> rfl

lemma fillAdmin1_confidence (p : Place) (c : Candidate) :
    (fillAdmin1 p c).confidence = c.confidence := by
  unfold fillAdmin1
  split <;> rfl

/-- `fillAdmin2` only writes `admin2`. -/
lemma fillAdmin2_admin2 (p : Place) (c : Candidate) :
    (fillAdmin2 p c).admin2 =
      if ¬strTruthy c.admin2 ∧ strTruthy p.county then p.county else c.admin2 := by
  unfold fillAdmin2
  split <;> rfl

lemma fillAdmin2_country_name (p : Place) (c : Candidate) :
    (fillAdmin2 p c).country_name = c.country_name := by
  unfold fillAdmin2
  split <;> rfl

lemma fillAdmin2_admin1 (p : Place) (c : Candidate) :
    (fillAdmin2 p c).admin1 = c.admin1 := by
  unfold fillAdmin2
  split <;> rfl

lemma fillAdmin2_city (p : Place) (c : Candidate) :
    (fillAdmin2 p c).nearest_city = c.nearest_city := by
  unfold fillAdmin2
  split <;> rfl

lemma fillAdmin2_confidence (p : Place) (c : Candidate) :
    (fillAdmin2 p c).confidence = c.confidence := by
  unfold fillAdmin2
  split <;> rfl

/-- `fillCity` only writes `nearest_city`. -/
lemma fillCity_city (p : Place) (c : Candidate) :
    (fillCity p c).nearest_city =
      if ¬strTruthy c.nearest_city ∧ strTruthy p.city then p.city
      else c.nearest_city := by
  unfold fillCity
  split <;> rfl

lemma fillCity_country_name (p : Place) (c : Candidate) :
    (fillCity p c).country_name = c.country_name := by
  unfold fillCity
  split <;> rfl

lemma fillCity_admin1 (p : Place) (c : Candidate) :
    (fillCity p c).admin1 = c.admin1 := by
  unfold fillCity
  split <;> rfl

lemma fillCity_admin2 (p : Place) (c : Candidate) :
    (fillCity p c).admin2 = c.admin2 := by
  unfold fillCity
  split <;> rfl

lemma fillCity_confidence (p : Place) (c : Candidate) :
    (fillCity p c).confidence = c.confidence := by
  unfold fillCity
  split <;> rfl

/-- Unfolded form of the geocode consistency adjustment when the lookup
succeeds. -/
lemma geocode_adjust_eq (reverse : ℚ → ℚ → Option Place) (c : Candidate)
    (lat lon : ℚ) (place : Place) (hla : c.latitude = some lat)
    (hlo : c.longitude = some lon) (hrev : reverse lat lon = some place) :
    geocode_consistency_adjust reverse c =
      (fillCity place (fillAdmin2 place (fillAdmin1 place (fillCountry place c))),
       0 + geoBoostCountry place
            (fillCity place (fillAdmin2 place (fillAdmin1 place (fillCountry place c))))
         + geoBoostAdmin place
            (fillCity place (fillAdmin2 place (fillAdmin1 place (fillCountry place c))))) := by
  unfold geocode_consistency_adjust
  rw [hla, hlo]
  dsimp only
  rw [hrev]

/-- The geocode consistency adjustment never changes the confidence field
of the candidate it returns. -/
lemma geocode_adjust_confidence (reverse : ℚ → ℚ → Option Place) (c : Candidate) :
    (geocode_consistency_adjust reverse c).1.confidence = c.confidence := by
  cases hla : c.latitude with
  | none =>
    unfold geocode_consistency_adjust
    rw [hla]
  | some lat =>
    cases hlo : c.longitude with
    | none =>
      unfold geocode_consistency_adjust
      rw [hla, hlo]
    | some lon =>
      cases hrev : reverse lat lon with
      | none =>
        unfold geocode_consistency_adjust
        rw [hla, hlo]
        dsimp only
        rw [hrev]
      | some place =>
        rw [geocode_adjust_eq reverse c lat lon place hla hlo hrev]
        dsimp only
        rw [fillCity_confidence, fillAdmin2_confidence, fillAdmin1_confidence,
          fillCountry_confidence]

/-! ### C5 -/

/-- C5 counterexample: a candidate with coordinates but no country name at
all still receives the +0.04 country-match bonus, because the code fills
the missing field from the reverse-geocoded place first and only then
compares — the claim says a candidate with no pre-existing country name
gets no comparison adjustment. -/
theorem geocode_adjust_prefill_counterexample :
    (geocode_consistency_adjust
        (fun _ _ => some ⟨some "France", none, none, none, none⟩)
        ⟨1, 0.5, none, none, none, none, none, some 1, some 2, none, none,
          none⟩).2 = 0.04
    ∧ (0.04 : ℚ) ≠ 0 := by
  constructor
  · have h : (geocode_consistency_adjust
        (fun _ _ => some ⟨some "France", none, none, none, none⟩)
        ⟨1, 0.5, none, none, none, none, none, some 1, some 2, none, none,
          none⟩).2 = 0 + 0.04 + 0 := rfl
    rw [h]
    norm_num
  · norm_num

/-- C5 (amended): the reverse-geocode consistency adjustment first fills
any of country/admin1/admin2/city the candidate lacks from the looked-up
place, and then compares the candidate's resulting (post-fill) country
name and admin1, case-insensitively and trimmed, against the looked-up
values: +0.04 / -0.06 for country match / mismatch, +0.02 for admin1
match, -0.02 for admin1 mismatch only when the country also matched.  A
field that was just filled therefore compares equal and collects the
match bonus. -/
theorem geocode_consistency_adjust_postfill
    (reverse : ℚ → ℚ → Option Place) (c : Candidate) (lat lon : ℚ) (place : Place)
    (hla : c.latitude = some lat) (hlo : c.longitude = some lon)
    (hrev : reverse lat lon = some place) :
    (geocode_consistency_adjust reverse c).1.country_name
        = (if ¬strTruthy c.country_name ∧ strTruthy place.country then place.country
           else c.country_name)
    ∧ (geocode_consistency_adjust reverse c).1.admin1
        = (if ¬strTruthy c.admin1 ∧ strTruthy place.state then place.state
           else c.admin1)
    ∧ (geocode_consistency_adjust reverse c).1.admin2
        = (if ¬strTruthy c.admin2 ∧ strTruthy place.county then place.county
           else c.admin2)
    ∧ (geocode_consistency_adjust reverse c).1.nearest_city
        = (if ¬strTruthy c.nearest_city ∧ strTruthy place.city then place.city
           else c.nearest_city)
    ∧ (geocode_consistency_adjust reverse c).2
        = (if strTruthy (geocode_consistency_adjust reverse c).1.country_name
              ∧ strTruthy place.country then
             if pyNormalize (geocode_consistency_adjust reverse c).1.country_name
                = pyNormalize place.country then (0.04 : ℚ) else -0.06
           else 0)
          + (if strTruthy (geocode_consistency_adjust reverse c).1.admin1
                ∧ strTruthy place.state then
              if pyNormalize (geocode_consistency_adjust reverse c).1.admin1
                  = pyNormalize place.state then (0.02 : ℚ)
              else if strTruthy (geocode_consistency_adjust reverse c).1.country_name
                  ∧ strTruthy place.country
                  ∧ pyNormalize (geocode_consistency_adjust reverse c).1.country_name
                    = pyNormalize place.country then -0.02
              else 0
             else 0) := by
  rw [geocode_adjust_eq reverse c lat lon place hla hlo hrev]
  refine ⟨?_, ?_, ?_, ?_, ?_⟩
  · rw [fillCity_country_name, fillAdmin2_country_name, fillAdmin1_country_name,
      fillCountry_country_name]
  · rw [fillCity_admin1, fillAdmin2_admin1, fillAdmin1_admin1, fillCountry_admin1]
  · rw [fillCity_admin2, fillAdmin2_admin2, fillAdmin1_admin2, fillCountry_admin2]
  · rw [fillCity_city]
    rw [fillAdmin2_city, fillAdmin1_city, fillCountry_city]
  · rw [zero_add]
    rfl

/-- C5 witness: a candidate already carrying "france" against a looked-up
" FRANCE " (match up to trim and case). -/
theorem geocode_consistency_adjust_postfill_witness :
    ((⟨1, 0.5, none, some "france", none, none, none, some 1, some 2, none, none,
        none⟩ : Candidate).latitude = some 1)
    ∧ (geocode_consistency_adjust
          (fun _ _ => some ⟨some " FRANCE ", none, none, none, none⟩)
          ⟨1, 0.5, none, some "france", none, none, none, some 1, some 2, none, none,
            none⟩).1.country_name
      = (if ¬strTruthy (some "france") ∧ strTruthy (some " FRANCE ") then some " FRANCE "
         else some "france") :=
  ⟨rfl,
    (geocode_consistency_adjust_postfill
      (fun _ _ => some ⟨some " FRANCE ", none, none, none, none⟩)
      ⟨1, 0.5, none, some "france", none, none, none, some 1, some 2, none, none, none⟩
      1 2 ⟨some " FRANCE ", none, none, none, none⟩ rfl rfl rfl).1⟩

/-! ### C6 -/

/-- Correctness of the best-tracking fold: the extracted element carries
its own score, comes from the traversed list (or the start accumulator),
and dominates every traversed score; the accumulator score never
decreases. -/
lemma bestFold_aux (f : SearchPlace → ℚ) (results : List SearchPlace) :
    ∀ acc : Option SearchPlace × ℚ,
      (∀ b, acc.1 = some b → acc.2 = f b) →
      (∀ b, (results.foldl (poiFold f) acc).1 = some b →
        (results.foldl (poiFold f) acc).2 = f b ∧ (b ∈ results ∨ acc.1 = some b))
      ∧ (∀ r ∈ results, f r ≤ (results.foldl (poiFold f) acc).2)
      ∧ acc.2 ≤ (results.foldl (poiFold f) acc).2 := by
  induction results with
  | nil =>
    intro acc hacc
    exact ⟨fun b hb => ⟨hacc b hb, Or.inr hb⟩, by simp, le_rfl⟩
  | cons r rs ih =>
    intro acc hacc
    have hstep : (r :: rs).foldl (poiFold f) acc = rs.foldl (poiFold f) (poiFold f acc r) :=
      rfl
    have hacc' : ∀ b, (poiFold f acc r).1 = some b → (poiFold f acc r).2 = f b := by
      intro b hb
      unfold poiFold at hb ⊢
      dsimp only at hb ⊢
      by_cases hc : acc.2 < f r
      · rw [if_pos hc] at hb ⊢
        cases hb
        rfl
      · rw [if_neg hc] at hb ⊢
        exact hacc b hb
    have hge : acc.2 ≤ (poiFold f acc r).2 := by
      unfold poiFold
      dsimp only
      split
      · exact le_of_lt (by assumption)
      · exact le_rfl
    have hr : f r ≤ (poiFold f acc r).2 := by
      unfold poiFold
      dsimp only
      split
      · exact le_rfl
      · exact le_of_not_lt (by assumption)
    obtain ⟨ih1, ih2, ih3⟩ := ih (poiFold f acc r) hacc'
    refine ⟨?_, ?_, ?_⟩
    · intro b hb
      rw [hstep] at hb
      obtain ⟨hsc, hmem⟩ := ih1 b hb
      refine ⟨by rw [hstep]; exact hsc, ?_⟩
      rcases hmem with h | h
      · exact Or.inl (List.mem_cons_of_mem _ h)
      · unfold poiFold at h
        dsimp only at h
        split at h
        · cases h
          exact Or.inl (List.mem_cons_self r rs)
        · exact Or.inr h
    · intro x hx
      rw [hstep]
      rcases List.mem_cons.mp hx with h | h
      · subst h
        exact le_trans hr ih3
      · exact ih2 x h
    · rw [hstep]
      exact le_trans hge ih3

/-- Adoption leaves confidence, cues, country code, reasons and rank
unchanged; the changed fields are exactly coordinates, the three
fill-only name fields and the radius. -/
lemma adoptCity_fields (b : SearchPlace) (c : Candidate) :
    (adoptCity b c).nearest_city
        = (if strTruthy b.city then orFill c.nearest_city b.city else c.nearest_city)
    ∧ (adoptCity b c).admin1 = c.admin1
    ∧ (adoptCity b c).country_name = c.country_name
    ∧ (adoptCity b c).confidence_radius_km = c.confidence_radius_km
    ∧ (adoptCity b c).latitude = c.latitude
    ∧ (adoptCity b c).longitude = c.longitude
    ∧ (adoptCity b c).confidence = c.confidence := by
  unfold adoptCity
  split <;> simp_all

lemma adoptAdmin1_fields (b : SearchPlace) (c : Candidate) :
    (adoptAdmin1 b c).admin1
        = (if strTruthy b.state then orFill c.admin1 b.state else c.admin1)
    ∧ (adoptAdmin1 b c).nearest_city = c.nearest_city
    ∧ (adoptAdmin1 b c).country_name = c.country_name
    ∧ (adoptAdmin1 b c).confidence_radius_km = c.confidence_radius_km
    ∧ (adoptAdmin1 b c).latitude = c.latitude
    ∧ (adoptAdmin1 b c).longitude = c.longitude
    ∧ (adoptAdmin1 b c).confidence = c.confidence := by
  unfold adoptAdmin1
  split <;> simp_all

lemma adoptCountry_fields (b : SearchPlace) (c : Candidate) :
    (adoptCountry b c).country_name
        = (if strTruthy b.country then orFill c.country_name b.country
           else c.country_name)
    ∧ (adoptCountry b c).nearest_city = c.nearest_city
    ∧ (adoptCountry b c).admin1 = c.admin1
    ∧ (adoptCountry b c).confidence_radius_km = c.confidence_radius_km
    ∧ (adoptCountry b c).latitude = c.latitude
    ∧ (adoptCountry b c).longitude = c.longitude
    ∧ (adoptCountry b c).confidence = c.confidence := by
  unfold adoptCountry
  split <;> simp_all

/-- Field-level description of the whole adoption block. -/
lemma adoptPoi_fields (b : SearchPlace) (c : Candidate) :
    (adoptPoi b c).latitude = some b.lat
    ∧ (adoptPoi b c).longitude = some b.lon
    ∧ (adoptPoi b c).nearest_city
        = (if strTruthy b.city then orFill c.nearest_city b.city else c.nearest_city)
    ∧ (adoptPoi b c).admin1
        = (if strTruthy b.state then orFill c.admin1 b.state else c.admin1)
    ∧ (adoptPoi b c).country_name
        = (if strTruthy b.country then orFill c.country_name b.country
           else c.country_name)
    ∧ (adoptPoi b c).confidence_radius_km = some (min (oldRadius c) 5)
    ∧ (adoptPoi b c).confidence = c.confidence := by
  unfold adoptPoi
  obtain ⟨h1, h2, h3, h4, h5, h6, h7⟩ :=
    adoptCity_fields b { c with latitude := some b.lat, longitude := some b.lon }
  obtain ⟨g1, g2, g3, g4, g5, g6, g7⟩ :=
    adoptAdmin1_fields b (adoptCity b { c with latitude := some b.lat, longitude := some b.lon })
  obtain ⟨k1, k2, k3, k4, k5, k6, k7⟩ :=
    adoptCountry_fields b (adoptAdmin1 b
      (adoptCity b { c with latitude := some b.lat, longitude := some b.lon }))
  have hrad : oldRadius (adoptCountry b (adoptAdmin1 b
      (adoptCity b { c with latitude := some b.lat, longitude := some b.lon })))
      = oldRadius c := by
    unfold oldRadius
    rw [k4, g4, h4]
  refine ⟨?_, ?_, ?_, ?_, ?_, ?_, ?_⟩
  · simp only [k5, g5, h5]
  · simp only [k6, g6, h6]
  · simp only [k2, g2, h1]
  · simp only [k3, g1, h2]
  · simp only [k1, g3, h3]
  · simp only [hrad]
  · simp only [k7, g7, h7]

/-- `poi_refine_candidate` either reports no adoption or adopts the best
result with the flat 0.08 boost. -/
lemma poi_refine_cases (forward : ForwardGeo) (dist : ℚ → ℚ → ℚ → ℚ → ℚ)
    (queries : List String) (ccb : Bool) (c : Candidate) :
    poi_refine_candidate forward dist queries ccb c = (c, 0)
    ∨ ∃ b, poi_refine_candidate forward dist queries ccb c = (adoptPoi b c, 0.08) := by
  unfold poi_refine_candidate
  split
  · exact Or.inl rfl
  · dsimp only
    rcases hb : (bestResult dist c (poiBias c) (poiAllResults forward ccb c queries)).1
      with _ | b
    · exact Or.inl rfl
    · dsimp only
      split
      · exact Or.inl rfl
      · exact Or.inr ⟨b, rfl⟩

/-- C6 (amended): the highest-scoring search result (first reached on
ties) is adopted exactly when its score is at least 1.0; on adoption the
coordinates are overwritten, city/admin1/country are filled only when
missing, the confidence radius becomes the minimum of 5km and the
current radius — an unset or zero radius counting as the 100km default —
and the reported boost is the flat 0.08; with no queries, no results, or
a best score below 1.0, the report is 0 and the candidate unchanged. -/
theorem poi_refine_adoption_spec (forward : ForwardGeo)
    (dist : ℚ → ℚ → ℚ → ℚ → ℚ) (queries : List String) (ccb : Bool)
    (c : Candidate) :
    (∀ b, (bestResult dist c (poiBias c) (poiAllResults forward ccb c queries)).1 = some b →
        b ∈ poiAllResults forward ccb c queries
        ∧ (bestResult dist c (poiBias c) (poiAllResults forward ccb c queries)).2
            = poiScore dist c (poiBias c) b
        ∧ ∀ r ∈ poiAllResults forward ccb c queries,
            poiScore dist c (poiBias c) r
              ≤ (bestResult dist c (poiBias c) (poiAllResults forward ccb c queries)).2)
    ∧ (queries = [] → poi_refine_candidate forward dist queries ccb c = (c, 0))
    ∧ ((bestResult dist c (poiBias c) (poiAllResults forward ccb c queries)).1 = none →
        poi_refine_candidate forward dist queries ccb c = (c, 0))
    ∧ (∀ b, (bestResult dist c (poiBias c) (poiAllResults forward ccb c queries)).1 = some b →
        (bestResult dist c (poiBias c) (poiAllResults forward ccb c queries)).2 < 1 →
        poi_refine_candidate forward dist queries ccb c = (c, 0))
    ∧ (∀ b, (bestResult dist c (poiBias c) (poiAllResults forward ccb c queries)).1 = some b →
        1 ≤ (bestResult dist c (poiBias c) (poiAllResults forward ccb c queries)).2 →
        poi_refine_candidate forward dist queries ccb c = (adoptPoi b c, 0.08)
        ∧ (adoptPoi b c).latitude = some b.lat
        ∧ (adoptPoi b c).longitude = some b.lon
        ∧ (adoptPoi b c).nearest_city
            = (if strTruthy b.city then orFill c.nearest_city b.city else c.nearest_city)
        ∧ (adoptPoi b c).admin1
            = (if strTruthy b.state then orFill c.admin1 b.state else c.admin1)
        ∧ (adoptPoi b c).country_name
            = (if strTruthy b.country then orFill c.country_name b.country
               else c.country_name)
        ∧ (adoptPoi b c).confidence_radius_km = some (min (oldRadius c) 5)) := by
  have hfold := bestFold_aux (poiScore dist c (poiBias c))
    (poiAllResults forward ccb c queries) (none, -1000000000) (by intro b hb; cases hb)
  refine ⟨?_, ?_, ?_, ?_, ?_⟩
  · intro b hb
    obtain ⟨h1, h2, _⟩ := hfold
    obtain ⟨hsc, hmem⟩ := h1 b hb
    refine ⟨?_, hsc, h2⟩
    rcases hmem with h | h
    · exact h
    · cases h
  · intro hq
    subst hq
    rfl
  · intro hnone
    unfold poi_refine_candidate
    split
    · rfl
    · dsimp only
      rw [hnone]
  · intro b hb hlt
    unfold poi_refine_candidate
    split
    · rfl
    · dsimp only
      rw [hb]
      dsimp only
      rw [if_pos hlt]
  · intro b hb hge
    obtain ⟨hlat, hlon, hcity, hadm, hcty, hrad, _⟩ := adoptPoi_fields b c
    have hq : ¬queries.isEmpty := by
      intro hq
      have : queries = [] := by
        cases queries
        · rfl
        · cases hq
      subst this
      cases hb
    refine ⟨?_, hlat, hlon, hcity, hadm, hcty, hrad⟩
    unfold poi_refine_candidate
    rw [if_neg hq]
    dsimp only
    rw [hb]
    dsimp only
    rw [if_neg (not_lt.mpr hge)]

/-- The concrete best-result computation shared by the C6 counterexample
and witness: the single returned place scores exactly 2 (country match
only) and wins. -/
lemma exPoi_best :
    bestResult exDist exPoiCand (poiBias exPoiCand)
        (poiAllResults exPoiForward true exPoiCand ["q"])
      = (some exPoiResult, 2) := by
  have hall : poiAllResults exPoiForward true exPoiCand ["q"] = [exPoiResult] := rfl
  have hbias : poiBias exPoiCand = none := rfl
  rw [hall, hbias]
  have hsc : poiScore exDist exPoiCand none exPoiResult = 2 := by
    have h1 : poiScore exDist exPoiCand none exPoiResult = 0 + 2 := rfl
    rw [h1]
    norm_num
  unfold bestResult
  simp only [List.foldl]
  unfold poiFold
  dsimp only
  rw [hsc, if_pos (by norm_num : (-1000000000 : ℚ) < 2)]

/-- C6 counterexample: with a zero (set but falsy) confidence radius the
adopted radius becomes 5km, not `min(current, 5) = 0` as the claim's
"current value or 100 when unset" reading demands — Python's
`or`-default also replaces a zero radius by 100. -/
theorem poi_radius_zero_counterexample :
    (poi_refine_candidate exPoiForward exDist ["q"] true exPoiCand).1.confidence_radius_km
        = some 5
    ∧ (poi_refine_candidate exPoiForward exDist ["q"] true
        exPoiCand).1.confidence_radius_km ≠ some (min 0 5) := by
  have hres : poi_refine_candidate exPoiForward exDist ["q"] true exPoiCand
      = (adoptPoi exPoiResult exPoiCand, 0.08) := by
    unfold poi_refine_candidate
    rw [if_neg (by decide : ¬(["q"].isEmpty = true))]
    dsimp only
    rw [exPoi_best]
    dsimp only
    rw [if_neg (by norm_num : ¬(2 : ℚ) < 1)]
  rw [hres]
  dsimp only
  obtain ⟨-, -, -, -, -, hrad, -⟩ := adoptPoi_fields exPoiResult exPoiCand
  rw [hrad]
  have hor : oldRadius exPoiCand = 100 := rfl
  rw [hor, min_eq_right (by norm_num : (5:ℚ) ≤ 100),
    min_eq_left (by norm_num : (0:ℚ) ≤ 5)]
  refine ⟨rfl, ?_⟩
  simp only [ne_eq, Option.some_inj]
  norm_num

/-- C6 witness: the concrete adoption scenario, via the main theorem. -/
theorem poi_refine_adoption_spec_witness :
    ((bestResult exDist exPoiCand (poiBias exPoiCand)
        (poiAllResults exPoiForward true exPoiCand ["q"])).1 = some exPoiResult)
    ∧ (1 : ℚ) ≤ (bestResult exDist exPoiCand (poiBias exPoiCand)
        (poiAllResults exPoiForward true exPoiCand ["q"])).2
    ∧ poi_refine_candidate exPoiForward exDist ["q"] true exPoiCand
        = (adoptPoi exPoiResult exPoiCand, 0.08) := by
  have h1 : (bestResult exDist exPoiCand (poiBias exPoiCand)
      (poiAllResults exPoiForward true exPoiCand ["q"])).1 = some exPoiResult := by
    rw [exPoi_best]
  have h2 : (1 : ℚ) ≤ (bestResult exDist exPoiCand (poiBias exPoiCand)
      (poiAllResults exPoiForward true exPoiCand ["q"])).2 := by
    rw [exPoi_best]
    norm_num
  exact ⟨h1, h2,
    ((poi_refine_adoption_spec exPoiForward exDist ["q"] true exPoiCand).2.2.2.2
      exPoiResult h1 h2).1⟩

/-! ### C9 -/

/-- Pointwise-equal predicates count equally. -/
lemma countP_congruent {α : Type} (p q : α → Bool) :
    ∀ l : List α, (∀ a ∈ l, p a = q a) → l.countP p = l.countP q := by
  intro l
  induction l with
  | nil => intro _; rfl
  | cons a t ih =>
    intro h
    rw [List.countP_cons, List.countP_cons, h a (List.mem_cons_self a t),
      ih (fun x hx => h x (List.mem_cons_of_mem a hx))]

/-- Both components of a generated pair come from the generating list. -/
lemma pairList_mem {α : Type} :
    ∀ (l : List α) (p : α × α), p ∈ pairList l → p.1 ∈ l ∧ p.2 ∈ l := by
  intro l
  induction l with
  | nil => intro p hp; cases hp
  | cons x xs ih =>
    intro p hp
    unfold pairList at hp
    rcases List.mem_append.mp hp with h | h
    · obtain ⟨y, hy, rfl⟩ := List.mem_map.mp h
      exact ⟨List.mem_cons_self x xs, List.mem_cons_of_mem x hy⟩
    · obtain ⟨h1, h2⟩ := ih p h
      exact ⟨List.mem_cons_of_mem x h1, List.mem_cons_of_mem x h2⟩

/-- A symmetric distance function makes the 150km test symmetric. -/
lemma closePair_symm (dist : ℚ → ℚ → ℚ → ℚ → ℚ)
    (hsym : ∀ a b x y, dist a b x y = dist x y a b) (a b : Candidate) :
    closePair dist a b = closePair dist b a := by
  unfold closePair
  rw [hsym]

/-- The indices of the coordinate-bearing candidates are pairwise
distinct. -/
lemma coordsOf_keys_nodup (l : List Candidate) :
    ((coordsOf l).map Prod.fst).Nodup := by
  have hsub : List.Sublist ((coordsOf l).map Prod.fst) (l.enum.map Prod.fst) :=
    (List.filter_sublist _).map Prod.fst
  rw [List.enum_map_fst] at hsub
  exact hsub.nodup (List.nodup_range _)

/-- In a list with distinct keys, the count of entries with key `i`
satisfying `q` is decided by the unique entry `(i, c)`. -/
lemma countP_key_unique (q : Nat × Candidate → Bool) :
    ∀ (xs : List (Nat × Candidate)) (i : Nat) (c : Candidate),
      (xs.map Prod.fst).Nodup → (i, c) ∈ xs →
      xs.countP (fun y => q y && decide (y.1 = i)) = if q (i, c) then 1 else 0 := by
  intro xs
  induction xs with
  | nil => intro i c _ hm; cases hm
  | cons x t ih =>
    intro i c hnd hm
    have hnd' : (t.map Prod.fst).Nodup := (List.nodup_cons.mp (by simpa using hnd)).2
    have hx : x.1 ∉ t.map Prod.fst := (List.nodup_cons.mp (by simpa using hnd)).1
    rw [List.countP_cons]
    by_cases hk : x.1 = i
    · have hxc : x = (i, c) := by
        rcases List.mem_cons.mp hm with h | h
        · exact h.symm
        · exact absurd (hk ▸ List.mem_map_of_mem Prod.fst h) hx
      have ht0 : t.countP (fun y => q y && decide (y.1 = i)) = 0 := by
        refine List.countP_eq_zero.mpr ?_
        intro y hy
        have : y.1 ≠ i := by
          intro he
          exact hx (hk ▸ he ▸ List.mem_map_of_mem Prod.fst hy)
        simp [this]
      rw [ht0, hxc]
      simp
    · have hm' : (i, c) ∈ t := by
        rcases List.mem_cons.mp hm with h | h
        · exact absurd (by rw [← h]) hk
        · exact h
      rw [ih i c hnd' hm']
      simp [hk]

/-- No pair involves an index that does not occur among the keys. -/
lemma neighborCount_zero (dist : ℚ → ℚ → ℚ → ℚ → ℚ) (xs : List (Nat × Candidate))
    (i : Nat) (h : i ∉ xs.map Prod.fst) :
    neighborCount dist xs i = 0 := by
  unfold neighborCount
  rw [← List.countP_eq_length_filter]
  refine List.countP_eq_zero.mpr ?_
  intro p hp
  obtain ⟨h1, h2⟩ := pairList_mem xs p hp
  have n1 : p.1.1 ≠ i := fun he => h (he ▸ List.mem_map_of_mem Prod.fst h1)
  have n2 : p.2.1 ≠ i := fun he => h (he ▸ List.mem_map_of_mem Prod.fst h2)
  simp [n1, n2]

/-- The accumulated neighbor count of an index equals the number of other
coordinate-bearing entries within 150km of its candidate, when the
distance function is symmetric and the keys are distinct. -/
lemma neighborCount_eq (dist : ℚ → ℚ → ℚ → ℚ → ℚ)
    (hsym : ∀ a b x y, dist a b x y = dist x y a b) :
    ∀ (coords : List (Nat × Candidate)) (i : Nat) (c : Candidate),
      (coords.map Prod.fst).Nodup → (i, c) ∈ coords →
      neighborCount dist coords i
        = coords.countP (fun jc => decide (jc.1 ≠ i) && closePair dist c jc.2) := by
  intro coords
  induction coords with
  | nil => intro i c _ hm; cases hm
  | cons x xs ih =>
    intro i c hnd hm
    have hnd' : (xs.map Prod.fst).Nodup := (List.nodup_cons.mp (by simpa using hnd)).2
    have hx : x.1 ∉ xs.map Prod.fst := (List.nodup_cons.mp (by simpa using hnd)).1
    have hcount : neighborCount dist (x :: xs) i
        = xs.countP ((fun p => closePair dist p.1.2 p.2.2
              && (decide (p.1.1 = i) || decide (p.2.1 = i))) ∘ (fun y => (x, y)))
          + neighborCount dist xs i := by
      unfold neighborCount
      rw [show pairList (x :: xs) = xs.map (fun y => (x, y)) ++ pairList xs from rfl,
        ← List.countP_eq_length_filter, ← List.countP_eq_length_filter,
        List.countP_append, List.countP_map]
    rw [hcount, List.countP_cons]
    by_cases hk : x.1 = i
    · have hxc : x = (i, c) := by
        rcases List.mem_cons.mp hm with h | h
        · exact h.symm
        · exact absurd (hk ▸ List.mem_map_of_mem Prod.fst h) hx
      have h1 : xs.countP ((fun p => closePair dist p.1.2 p.2.2
              && (decide (p.1.1 = i) || decide (p.2.1 = i))) ∘ (fun y => (x, y)))
          = xs.countP (fun jc => decide (jc.1 ≠ i) && closePair dist c jc.2) := by
        refine countP_congruent _ _ xs ?_
        intro y hy
        have hyne : y.1 ≠ i := fun he =>
          hx (hk ▸ he ▸ List.mem_map_of_mem Prod.fst hy)
        have hx2 : x.2 = c := by rw [hxc]
        simp [Function.comp, hk, hyne, hx2]
      have h2 : neighborCount dist xs i = 0 :=
        neighborCount_zero dist xs i (hk ▸ hx)
      have h3 : (if decide (x.1 ≠ i) && closePair dist c x.2 then 1 else 0) = 0 := by
        simp [hk]
      rw [h1, h2, h3]
    · have hm' : (i, c) ∈ xs := by
        rcases List.mem_cons.mp hm with h | h
        · exact absurd (by rw [← h]) hk
        · exact h
      have h1 : xs.countP ((fun p => closePair dist p.1.2 p.2.2
              && (decide (p.1.1 = i) || decide (p.2.1 = i))) ∘ (fun y => (x, y)))
          = xs.countP (fun y => closePair dist x.2 y.2 && decide (y.1 = i)) := by
        refine countP_congruent _ _ xs ?_
        intro y _
        simp [Function.comp, hk]
      have h2 : xs.countP (fun y => closePair dist x.2 y.2 && decide (y.1 = i))
          = if closePair dist x.2 c then 1 else 0 :=
        countP_key_unique (fun y => closePair dist x.2 y.2) xs i c hnd' hm'
      have h3 : closePair dist x.2 c = closePair dist c x.2 := closePair_symm dist hsym _ _
      have h4 : (if decide (x.1 ≠ i) && closePair dist c x.2 then 1 else 0)
          = if closePair dist c x.2 then 1 else 0 := by
        simp [hk]
      rw [h1, h2, h3, h4, ih i c hnd' hm']
      omega

/-- Looking up a key of a key-preserving mapped association list with
distinct keys retrieves the value computed from the unique entry. -/
lemma lookup_map_eq (f : Nat × Candidate → Nat × ℚ) (hf : ∀ ic, (f ic).1 = ic.1) :
    ∀ (coords : List (Nat × Candidate)) (i : Nat) (c : Candidate),
      (coords.map Prod.fst).Nodup → (i, c) ∈ coords →
      (coords.map f).lookup i = some (f (i, c)).2 := by
  intro coords
  induction coords with
  | nil => intro i c _ hm; cases hm
  | cons x t ih =>
    intro i c hnd hm
    have hnd' : (t.map Prod.fst).Nodup := (List.nodup_cons.mp (by simpa using hnd)).2
    have hx : x.1 ∉ t.map Prod.fst := (List.nodup_cons.mp (by simpa using hnd)).1
    have hred : ((x :: t).map f).lookup i
        = match i == (f x).1 with
          | true => some (f x).2
          | false => (t.map f).lookup i := rfl
    cases hbe : i == (f x).1 with
    | true =>
      have hk : i = x.1 := by
        rw [hf x] at hbe
        exact beq_iff_eq.mp hbe
      have hxc : x = (i, c) := by
        rcases List.mem_cons.mp hm with h | h
        · exact h.symm
        · exact absurd (hk ▸ List.mem_map_of_mem Prod.fst h) (hk ▸ hx)
      simp only [hred, hbe]
      rw [hxc]
    | false =>
      have hk : i ≠ x.1 := by
        rw [hf x] at hbe
        exact beq_eq_false_iff_ne.mp hbe
      have hm' : (i, c) ∈ t := by
        rcases List.mem_cons.mp hm with h | h
        · exact absurd (by rw [← h]) hk
        · exact h
      simp only [hred, hbe]
      exact ih i c hnd' hm'

/-- A key absent from the association list looks up to `none`. -/
lemma lookup_map_none (f : Nat × Candidate → Nat × ℚ) (hf : ∀ ic, (f ic).1 = ic.1) :
    ∀ (coords : List (Nat × Candidate)) (i : Nat),
      i ∉ coords.map Prod.fst →
      (coords.map f).lookup i = none := by
  intro coords
  induction coords with
  | nil => intro i _; rfl
  | cons x t ih =>
    intro i hni
    have h1 : i ≠ x.1 := fun he => hni (by simp [he])
    have h2 : i ∉ t.map Prod.fst := fun hm => hni (List.mem_cons_of_mem _ hm)
    have hred : ((x :: t).map f).lookup i
        = match i == (f x).1 with
          | true => some (f x).2
          | false => (t.map f).lookup i := rfl
    have hbe : (i == (f x).1) = false := by
      rw [hf x]
      exact beq_eq_false_iff_ne.mpr h1
    simp only [hred, hbe]
    exact ih i h2

/-- A candidate without both coordinates never indexes into `coordsOf`. -/
lemma not_key_of_no_coords (l : List Candidate) (i : Nat) (c : Candidate)
    (hc : l[i]? = some c) (hnc : ¬(c.latitude.isSome ∧ c.longitude.isSome)) :
    i ∉ (coordsOf l).map Prod.fst := by
  intro hmem
  obtain ⟨jd, hjd, hj⟩ := List.mem_map.mp hmem
  obtain ⟨hde, hdp⟩ := List.mem_filter.mp hjd
  rcases jd with ⟨j, d⟩
  simp only at hj
  subst hj
  have hgd : l[j]? = some d := List.mk_mem_enum_iff_getElem?.mp hde
  rw [hc] at hgd
  cases hgd
  exact hnc (by simpa using hdp)

/-- C9: for every candidate list (and any symmetric distance function in
place of the transcendental haversine), the cluster scorer returns no
adjustments when fewer than two candidates have coordinates; otherwise
each coordinate-bearing candidate is keyed to +0.04 with at least two
other candidates within 150km, +0.02 with exactly one, and -0.01 with
none, and a candidate without coordinates has no key. -/
theorem cluster_adjustments_spec (dist : ℚ → ℚ → ℚ → ℚ → ℚ)
    (l : List Candidate) (hsym : ∀ a b x y, dist a b x y = dist x y a b) :
    ((coordsOf l).length < 2 → cluster_adjustments dist l = [])
    ∧ (2 ≤ (coordsOf l).length →
        ∀ i c, (i, c) ∈ coordsOf l →
          (cluster_adjustments dist l).lookup i =
            some (if 2 ≤ (coordsOf l).countP
                      (fun jc => decide (jc.1 ≠ i) && closePair dist c jc.2)
                  then (0.04 : ℚ)
                  else if (coordsOf l).countP
                      (fun jc => decide (jc.1 ≠ i) && closePair dist c jc.2) = 1
                  then 0.02
                  else -0.01))
    ∧ (∀ i c, l[i]? = some c → ¬(c.latitude.isSome ∧ c.longitude.isSome) →
        (cluster_adjustments dist l).lookup i = none) := by
  refine ⟨?_, ?_, ?_⟩
  · intro hlt
    unfold cluster_adjustments
    rw [if_pos hlt]
  · intro hge i c hm
    unfold cluster_adjustments
    rw [if_neg (not_lt.mpr hge)]
    rw [lookup_map_eq (fun ic => (ic.1, clusterVal dist (coordsOf l) ic.1))
      (fun _ => rfl) (coordsOf l) i c (coordsOf_keys_nodup l) hm]
    dsimp only
    unfold clusterVal
    rw [neighborCount_eq dist hsym (coordsOf l) i c (coordsOf_keys_nodup l) hm]
  · intro i c hc hnc
    unfold cluster_adjustments
    split
    · rfl
    · exact lookup_map_none (fun ic => (ic.1, clusterVal dist (coordsOf l) ic.1))
        (fun _ => rfl) (coordsOf l) i (not_key_of_no_coords l i c hc hnc)

/-- C9 witness: two co-located candidates each get +0.02 (one neighbor);
the zero distance function is symmetric. -/
theorem cluster_adjustments_spec_witness :
    (∀ a b x y : ℚ, exDist a b x y = exDist x y a b)
    ∧ 2 ≤ (coordsOf
        [⟨1, 0.5, none, none, none, none, none, some 1, some 2, none, none, none⟩,
         ⟨2, 0.4, none, none, none, none, none, some 1, some 2, none, none, none⟩]).length
    ∧ ((0 : Nat),
        (⟨1, 0.5, none, none, none, none, none, some 1, some 2, none, none, none⟩ :
          Candidate)) ∈ coordsOf
        [⟨1, 0.5, none, none, none, none, none, some 1, some 2, none, none, none⟩,
         ⟨2, 0.4, none, none, none, none, none, some 1, some 2, none, none, none⟩]
    ∧ (cluster_adjustments exDist
        [⟨1, 0.5, none, none, none, none, none, some 1, some 2, none, none, none⟩,
         ⟨2, 0.4, none, none, none, none, none, some 1, some 2, none, none, none⟩]).lookup 0
      = some (if 2 ≤ (coordsOf
            [⟨1, 0.5, none, none, none, none, none, some 1, some 2, none, none, none⟩,
             ⟨2, 0.4, none, none, none, none, none, some 1, some 2, none, none, none⟩]).countP
              (fun jc => decide (jc.1 ≠ 0) && closePair exDist
                ⟨1, 0.5, none, none, none, none, none, some 1, some 2, none, none, none⟩ jc.2)
            then (0.04 : ℚ)
            else if (coordsOf
            [⟨1, 0.5, none, none, none, none, none, some 1, some 2, none, none, none⟩,
             ⟨2, 0.4, none, none, none, none, none, some 1, some 2, none, none, none⟩]).countP
              (fun jc => decide (jc.1 ≠ 0) && closePair exDist
                ⟨1, 0.5, none, none, none, none, none, some 1, some 2, none, none, none⟩ jc.2) = 1
            then 0.02
            else -0.01) := by
  have hsym : ∀ a b x y : ℚ, exDist a b x y = exDist x y a b := fun _ _ _ _ => rfl
  have hco : coordsOf
      [⟨1, 0.5, none, none, none, none, none, some 1, some 2, none, none, none⟩,
       ⟨2, 0.4, none, none, none, none, none, some 1, some 2, none, none, none⟩]
      = [(0, ⟨1, 0.5, none, none, none, none, none, some 1, some 2, none, none, none⟩),
         (1, ⟨2, 0.4, none, none, none, none, none, some 1, some 2, none, none, none⟩)] := rfl
  have h2 : 2 ≤ (coordsOf
      [⟨1, 0.5, none, none, none, none, none, some 1, some 2, none, none, none⟩,
       ⟨2, 0.4, none, none, none, none, none, some 1, some 2, none, none, none⟩]).length := by
    rw [hco]
    simp
  have hm : ((0 : Nat),
      (⟨1, 0.5, none, none, none, none, none, some 1, some 2, none, none, none⟩ :
        Candidate)) ∈ coordsOf
      [⟨1, 0.5, none, none, none, none, none, some 1, some 2, none, none, none⟩,
       ⟨2, 0.4, none, none, none, none, none, some 1, some 2, none, none, none⟩] := by
    rw [hco]
    exact List.mem_cons_self _ _
  exact ⟨hsym, h2, hm,
    (cluster_adjustments_spec exDist _ hsym).2.1 h2 0 _ hm⟩

/-! ### C3 -/

/-- Clamping into [0,1] always lands in [0,1]. -/
lemma clamp01_in01 (x : ℚ) : 0 ≤ min 1 (max 0 x) ∧ min 1 (max 0 x) ≤ 1 :=
  ⟨le_min (by norm_num) (le_max_left 0 x), min_le_left _ _⟩

/-- The majority boost is never negative. -/
lemma majorityBoost_nonneg (mc ma : Option String) (c : Candidate) :
    0 ≤ majorityBoost mc ma c :=
  add_nonneg (ite_nonneg _ _ _ (by norm_num) le_rfl)
    (ite_nonneg _ _ _ (by norm_num) le_rfl)

/-- Capped addition of a nonnegative boost to a confidence in [0,1] stays
in [0,1]. -/
lemma min_one_add_in01 (x b : ℚ) (hx : 0 ≤ x) (hb : 0 ≤ b) :
    0 ≤ min 1 (x + b) ∧ min 1 (x + b) ≤ 1 :=
  ⟨le_min (by norm_num) (by linarith), min_le_left _ _⟩

/-- Stage bound: base refinement keeps [0,1]. -/
lemma step1a_in01 (c : Candidate) (h : ConfIn01 c) : ConfIn01 (step1a c) := by
  obtain ⟨h0, _⟩ := h
  exact ⟨refine_confidence_nonneg c h0, refine_confidence_le_one c⟩

/-- Stage bound: the contradiction-penalty update keeps [0,1]. -/
lemma step1b_in01 (c : Candidate) (h : ConfIn01 c) : ConfIn01 (step1b c) := by
  obtain ⟨h0, h1⟩ := h
  unfold step1b
  dsimp only
  split
  · have hp := contradiction_penalty_nonneg c
    exact ⟨le_max_left _ _, max_le (by norm_num) (by linarith)⟩
  · exact ⟨h0, h1⟩

/-- Stage bound: the speed/radius clamp-add lands in [0,1]
unconditionally. -/
lemma step1c_in01 (c : Candidate) : ConfIn01 (step1c c) := by
  unfold step1c ConfIn01
  exact clamp01_in01 _

/-- Stage bound: the reverse-geocode consistency step keeps [0,1]. -/
lemma geoStep_in01 (reverse : ℚ → ℚ → Option Place) (c : Candidate)
    (h : ConfIn01 c) : ConfIn01 (geoStep reverse c) := by
  unfold geoStep
  dsimp only
  split
  · exact clamp01_in01 _
  · unfold ConfIn01
    rw [geocode_adjust_confidence]
    exact h

/-- Stage bound: the POI refinement step keeps [0,1]. -/
lemma poiStep_in01 (forward : ForwardGeo) (extract : Candidate → List String)
    (dist : ℚ → ℚ → ℚ → ℚ → ℚ) (c : Candidate) (h : ConfIn01 c) :
    ConfIn01 (poiStep forward extract dist c) := by
  unfold poiStep
  dsimp only
  split
  · exact clamp01_in01 _
  · rcases poi_refine_cases forward dist (extract c) true c with hc | ⟨b, hc⟩
    · unfold ConfIn01
      rw [hc]
      exact h
    · unfold ConfIn01
      rw [hc]
      dsimp only
      rw [(adoptPoi_fields b c).2.2.2.2.2.2]
      exact h

/-- Stage bound: applying the cluster adjustments keeps the whole list in
[0,1]. -/
lemma applyClusterAdj_in01 (adj : List (Nat × ℚ)) (l : List Candidate)
    (h : ConfsIn01 l) : ConfsIn01 (applyClusterAdj adj l) := by
  intro c' hc'
  unfold applyClusterAdj at hc'
  obtain ⟨⟨i, c⟩, hmem, hfc⟩ := List.mem_map.mp hc'
  have hcl : c ∈ l := by
    have : l[i]? = some c := List.mk_mem_enum_iff_getElem?.mp hmem
    exact List.getElem?_mem this
  have hc01 := h c hcl
  rcases hlk : adj.lookup i with _ | a
  · rw [hlk] at hfc
    dsimp only at hfc
    rw [← hfc]
    exact hc01
  · rw [hlk] at hfc
    dsimp only at hfc
    rw [← hfc]
    exact clamp01_in01 _

/-- Stage bound: the majority-consistency boost keeps the whole list in
[0,1]. -/
lemma boost_in01 (reverse : ℚ → ℚ → Option Place) (do_reverse : Bool)
    (l : List Candidate) (h : ConfsIn01 l) :
    ConfsIn01 (consistency_boost_via_reverse_geocode reverse do_reverse l) := by
  unfold consistency_boost_via_reverse_geocode
  split
  · exact h
  · split
    · exact h
    · split
      · exact h
      · intro c' hc'
        obtain ⟨c, hcl, hfc⟩ := List.mem_map.mp hc'
        have hc01 := h c hcl
        unfold boostOne at hfc
        split at hfc
        · rw [← hfc]
          exact min_one_add_in01 _ _ hc01.1 (majorityBoost_nonneg _ _ c)
        · rw [← hfc]
          exact hc01

/-- Stage bound: the final top-candidate enrichment keeps the whole list
in [0,1]. -/
lemma step9_in01 (reverse : ℚ → ℚ → Option Place) (do_reverse : Bool)
    (l : List Candidate) (h : ConfsIn01 l) :
    ConfsIn01 (step9_enrich reverse do_reverse l) := by
  unfold step9_enrich
  split
  · exact h
  · match l, h with
    | [], _ => intro c hc; cases hc
    | pg :: rest, h =>
      have hpg := h pg (List.mem_cons_self pg rest)
      have hrest : ∀ c ∈ rest, ConfIn01 c :=
        fun c hc => h c (List.mem_cons_of_mem pg hc)
      rcases hla : pg.latitude with _ | la
      · simpa [hla] using h
      · rcases hlo : pg.longitude with _ | lo
        · simpa [hla, hlo] using h
        · rcases hrev : reverse la lo with _ | place
          · simpa [hla, hlo, hrev] using h
          · dsimp only
            rw [hla, hlo]
            dsimp only
            rw [hrev]
            intro c hc
            rcases List.mem_cons.mp hc with hh | hh
            · subst hh
              unfold enrichTop
              split
              · rename_i himp
                have hfc : (enrichFill place pg).confidence = pg.confidence := rfl
                refine min_one_add_in01 _ _ hpg.1 ?_
                nlinarith [le_of_lt himp]
              · exact hpg
            · exact hrest c hh

/-- C3: for any candidate (and any list) with confidence in [0,1] and any
collaborator behaviour, every adjustment stage of the pipeline — base
refinement, contradiction penalty, speed/radius clamp-add,
reverse-geocode consistency, cluster adjustment, POI refinement,
majority boost, and the final top-candidate enrichment — keeps
confidence in [0,1]. -/
theorem confidence_unit_interval_stages
    (reverse : ℚ → ℚ → Option Place) (forward : ForwardGeo)
    (extract : Candidate → List String) (dist : ℚ → ℚ → ℚ → ℚ → ℚ)
    (do_reverse : Bool) (c : Candidate) (l : List Candidate) :
    (ConfIn01 c → ConfIn01 (step1a c))
    ∧ (ConfIn01 c → ConfIn01 (step1b c))
    ∧ ConfIn01 (step1c c)
    ∧ (ConfIn01 c → ConfIn01 (geoStep reverse c))
    ∧ (ConfIn01 c → ConfIn01 (poiStep forward extract dist c))
    ∧ (ConfsIn01 l → ConfsIn01 (applyClusterAdj (cluster_adjustments dist l) l))
    ∧ (ConfsIn01 l → ConfsIn01 (consistency_boost_via_reverse_geocode reverse do_reverse l))
    ∧ (ConfsIn01 l → ConfsIn01 (step9_enrich reverse do_reverse l)) :=
  ⟨step1a_in01 c, step1b_in01 c, step1c_in01 c, geoStep_in01 reverse c,
    poiStep_in01 forward extract dist c,
    applyClusterAdj_in01 (cluster_adjustments dist l) l,
    boost_in01 reverse do_reverse l, step9_in01 reverse do_reverse l⟩

/-- C3 witness: the stages applied to a concrete confidence-1/2
candidate. -/
theorem confidence_unit_interval_stages_witness :
    ConfIn01 exCand
    ∧ ConfIn01 (step1a exCand)
    ∧ ConfsIn01 (step9_enrich (fun _ _ => none) true [exCand]) := by
  have h : ConfIn01 exCand := by
    unfold ConfIn01 exCand
    norm_num
  have hl : ConfsIn01 [exCand] := by
    intro c hc
    rcases List.mem_singleton.mp hc with rfl
    exact h
  exact ⟨h,
    (confidence_unit_interval_stages (fun _ _ => none) (fun _ _ _ _ _ => [])
      (fun _ => []) (fun _ _ _ _ => 0) true exCand [exCand]).1 h,
    (confidence_unit_interval_stages (fun _ _ => none) (fun _ _ _ _ _ => [])
      (fun _ => []) (fun _ _ _ _ => 0) true exCand [exCand]).2.2.2.2.2.2.2 hl⟩

/-! ### C2: stable-sort lemmas -/

/-- The descending insertion places a candidate strictly after every
strictly-more-confident element and before the first equal-or-less one,
so filtering by an exact confidence value commutes with insertion in the
stable way. -/
lemma filter_orderedInsert (q : ℚ) (c : Candidate) :
    ∀ l : List Candidate,
      (List.orderedInsert confGE c l).filter (fun x => decide (x.confidence = q))
        = if c.confidence = q then
            c :: l.filter (fun x => decide (x.confidence = q))
          else l.filter (fun x => decide (x.confidence = q)) := by
  intro l
  induction l with
  | nil =>
    by_cases hc : c.confidence = q <;>
      simp [List.orderedInsert, List.filter, hc]
  | cons b t ih =>
    rw [List.orderedInsert]
    by_cases hr : confGE c b
    · rw [if_pos hr]
      by_cases hc : c.confidence = q <;>
        simp [List.filter_cons, hc]
    · rw [if_neg hr]
      have hlt : c.confidence < b.confidence := not_le.mp hr
      by_cases hc : c.confidence = q
      · have hb : ¬ b.confidence = q := by
          rw [← hc]
          exact (ne_of_gt hlt)
        simp [List.filter_cons, hb, hc, ih]
      · by_cases hb : b.confidence = q <;>
          simp [List.filter_cons, hb, hc, ih]

/-- Python's stable descending sort preserves the sublist of candidates
at each exact confidence value — the formal statement of stable tie
order. -/
lemma filter_sortByConfDesc (q : ℚ) (l : List Candidate) :
    (sortByConfDesc l).filter (fun x => decide (x.confidence = q))
      = l.filter (fun x => decide (x.confidence = q)) := by
  unfold sortByConfDesc
  induction l with
  | nil => rfl
  | cons c t ih =>
    rw [List.insertionSort, filter_orderedInsert, ih]
    by_cases hc : c.confidence = q <;> simp [List.filter_cons, hc]

/-- The sort output is sorted by descending confidence. -/
lemma sortByConfDesc_sorted (l : List Candidate) :
    (sortByConfDesc l).Sorted confGE :=
  List.sorted_insertionSort confGE l

/-- The sort output is a permutation of the input. -/
lemma sortByConfDesc_perm (l : List Candidate) :
    List.Perm (sortByConfDesc l) l :=
  List.perm_insertionSort confGE l

/-! ### C2: structure lemmas -/

/-- `mapFirstN` preserves length. -/
lemma mapFirstN_length {α : Type} (n : Nat) (f : α → α) (l : List α) :
    (mapFirstN n f l).length = l.length := by
  unfold mapFirstN
  rw [List.length_append, List.length_map, List.length_take, List.length_drop]
  omega

/-- `mapFirstN` with a pointwise-invariant-preserving function preserves a
membership invariant. -/
lemma mapFirstN_forall (n : Nat) (f : Candidate → Candidate) (l : List Candidate)
    (hf : ∀ c, ConfIn01 c → ConfIn01 (f c)) (h : ConfsIn01 l) :
    ConfsIn01 (mapFirstN n f l) := by
  intro x hx
  unfold mapFirstN at hx
  rcases List.mem_append.mp hx with hm | hm
  · obtain ⟨c, hc, rfl⟩ := List.mem_map.mp hm
    exact hf c (h c (List.take_subset n l hc))
  · exact h x (List.drop_subset n l hm)

/-- A permutation carries the list invariant. -/
lemma confsIn01_of_perm (l₁ l₂ : List Candidate) (hp : List.Perm l₁ l₂)
    (h : ConfsIn01 l₁) : ConfsIn01 l₂ :=
  fun c hc => h c (hp.mem_iff.mpr hc)

/-- Every candidate coming out of step 1 satisfies the invariant,
whatever came in. -/
lemma step1_refine_in01 (c : Candidate) : ConfIn01 (step1_refine c) :=
  step1c_in01 _

/-- The invariant holds for the whole pipeline state before the first
sort, with no assumption on the raw model output. -/
lemma pipelinePreSort_in01 (reverse : ℚ → ℚ → Option Place) (forward : ForwardGeo)
    (extract : Candidate → List String) (dist : ℚ → ℚ → ℚ → ℚ → ℚ)
    (raw : ModelOutput) (top_k : Nat) (do_reverse : Bool) :
    ConfsIn01 (pipelinePreSort reverse forward extract dist raw top_k do_reverse) := by
  unfold pipelinePreSort
  have h1 : ConfsIn01 ((raw.primary_guess :: raw.alternatives).map step1_refine) := by
    intro x hx
    obtain ⟨c, _, rfl⟩ := List.mem_map.mp hx
    exact step1_refine_in01 c
  by_cases hdr : do_reverse = true
  · simp only [hdr, if_true]
    exact mapFirstN_forall _ _ _ (poiStep_in01 forward extract dist)
      (applyClusterAdj_in01 _ _
        (mapFirstN_forall _ _ _ (geoStep_in01 reverse) h1))
  · have hdr' : do_reverse = false := Bool.not_eq_true _ ▸ Bool.eq_false_iff.mpr (by simpa using hdr)
    simp only [hdr', Bool.false_eq_true, if_false]
    exact applyClusterAdj_in01 _ _ h1

/-- The invariant holds after the first sort and the majority boost. -/
lemma pipelineBoosted_in01 (reverse : ℚ → ℚ → Option Place) (forward : ForwardGeo)
    (extract : Candidate → List String) (dist : ℚ → ℚ → ℚ → ℚ → ℚ)
    (raw : ModelOutput) (top_k : Nat) (do_reverse : Bool) :
    ConfsIn01 (pipelineBoosted reverse forward extract dist raw top_k do_reverse) :=
  boost_in01 reverse do_reverse _
    (confsIn01_of_perm _ _ (sortByConfDesc_perm _).symm
      (pipelinePreSort_in01 reverse forward extract dist raw top_k do_reverse))

/-- Rank reassignment keeps the confidences, in order. -/
lemma assignRanksAux_map_conf :
    ∀ (l : List Candidate) (i : Nat),
      (assignRanksAux i l).map Candidate.confidence = l.map Candidate.confidence := by
  intro l
  induction l with
  | nil => intro i; rfl
  | cons c t ih =>
    intro i
    simp only [assignRanksAux, List.map_cons, ih]

/-- Rank reassignment writes consecutive ranks starting at the given
index. -/
lemma assignRanksAux_map_rank :
    ∀ (l : List Candidate) (i : Nat),
      (assignRanksAux i l).map Candidate.rank
        = (List.range' i l.length).map Int.ofNat := by
  intro l
  induction l with
  | nil => intro i; rfl
  | cons c t ih =>
    intro i
    simp only [assignRanksAux, List.map_cons, List.length_cons, List.range'_succ,
      ih]
    rfl

/-- Taking a prefix of a `range'` is a shorter `range'`. -/
lemma range'_take :
    ∀ (n s k : Nat), (List.range' s n).take k = List.range' s (min n k) := by
  intro n
  induction n with
  | zero => intro s k; simp
  | succ m ih =>
    intro s k
    cases k with
    | zero => simp
    | succ k' =>
      rw [List.range'_succ, List.take_succ_cons, ih (s + 1) k',
        show min (m + 1) (k' + 1) = min m k' + 1 by omega, List.range'_succ]

/-- Two lists with the same confidences in the same positions are sorted
together. -/
lemma sorted_of_map_conf_eq (l₁ l₂ : List Candidate)
    (he : l₁.map Candidate.confidence = l₂.map Candidate.confidence)
    (h : l₁.Sorted confGE) : l₂.Sorted confGE := by
  have h1 : List.Pairwise (fun a b : ℚ => b ≤ a) (l₁.map Candidate.confidence) := by
    rw [List.pairwise_map]
    exact h
  rw [he, List.pairwise_map] at h1
  exact h1

/-- Two lists with the same confidences in the same positions share the
candidate invariant. -/
lemma confsIn01_of_map_conf_eq (l₁ l₂ : List Candidate)
    (he : l₁.map Candidate.confidence = l₂.map Candidate.confidence)
    (h : ConfsIn01 l₁) : ConfsIn01 l₂ := by
  intro c hc
  have hm : c.confidence ∈ l₂.map Candidate.confidence :=
    List.mem_map_of_mem Candidate.confidence hc
  rw [← he] at hm
  obtain ⟨d, hd, hde⟩ := List.mem_map.mp hm
  have := h d hd
  exact ⟨hde ▸ this.1, hde ▸ this.2⟩

/-- Enrichment can only raise the top confidence (given it was at
most 1). -/
lemma enrichTop_conf_ge (place : Place) (pg : Candidate)
    (h1 : pg.confidence ≤ 1) :
    pg.confidence ≤ (enrichTop place pg).confidence := by
  unfold enrichTop
  split
  · rename_i himp
    refine le_min h1 ?_
    have : (enrichFill place pg).confidence = pg.confidence := rfl
    nlinarith [le_of_lt himp]
  · exact le_rfl

/-- Enrichment never changes a rank. -/
lemma enrichTop_rank (place : Place) (pg : Candidate) :
    (enrichTop place pg).rank = pg.rank := by
  unfold enrichTop
  split <;> rfl

/-- The final enrichment pass preserves the rank sequence. -/
lemma step9_map_rank (reverse : ℚ → ℚ → Option Place) (do_reverse : Bool)
    (l : List Candidate) :
    (step9_enrich reverse do_reverse l).map Candidate.rank = l.map Candidate.rank := by
  unfold step9_enrich
  split
  · rfl
  · match l with
    | [] => rfl
    | pg :: rest =>
      rcases hla : pg.latitude with _ | la
      · simp [hla]
      · rcases hlo : pg.longitude with _ | lo
        · simp [hla, hlo]
        · rcases hrev : reverse la lo with _ | place
          · simp [hla, hlo, hrev]
          · simp [hla, hlo, hrev, enrichTop_rank]

/-- The final enrichment pass preserves length. -/
lemma step9_length (reverse : ℚ → ℚ → Option Place) (do_reverse : Bool)
    (l : List Candidate) :
    (step9_enrich reverse do_reverse l).length = l.length := by
  have := congrArg List.length (step9_map_rank reverse do_reverse l)
  simpa using this

/-- The final enrichment pass keeps the list sorted (it only raises the
head, which was already maximal, and caps it at a bound no smaller than
any entry). -/
lemma step9_sorted (reverse : ℚ → ℚ → Option Place) (do_reverse : Bool)
    (l : List Candidate) (hs : l.Sorted confGE) (h01 : ConfsIn01 l) :
    (step9_enrich reverse do_reverse l).Sorted confGE := by
  unfold step9_enrich
  split
  · exact hs
  · match l, hs, h01 with
    | [], _, _ => exact List.sorted_nil
    | pg :: rest, hs, h01 =>
      have hpg01 := h01 pg (List.mem_cons_self pg rest)
      obtain ⟨hhead, htail⟩ := List.pairwise_cons.mp hs
      rcases hla : pg.latitude with _ | la
      · simpa [hla] using hs
      · rcases hlo : pg.longitude with _ | lo
        · simpa [hla, hlo] using hs
        · rcases hrev : reverse la lo with _ | place
          · simpa [hla, hlo, hrev] using hs
          · dsimp only
            rw [hla, hlo]
            dsimp only
            rw [hrev]
            refine List.pairwise_cons.mpr ⟨?_, htail⟩
            intro y hy
            have h1 : y.confidence ≤ pg.confidence := hhead y hy
            have h2 : pg.confidence ≤ (enrichTop place pg).confidence :=
              enrichTop_conf_ge place pg hpg01.2
            exact le_trans h1 h2

/-- The pipeline state before the first sort has the same length as the
raw candidate list. -/
lemma pipelinePreSort_length (reverse : ℚ → ℚ → Option Place) (forward : ForwardGeo)
    (extract : Candidate → List String) (dist : ℚ → ℚ → ℚ → ℚ → ℚ)
    (raw : ModelOutput) (top_k : Nat) (do_reverse : Bool) :
    (pipelinePreSort reverse forward extract dist raw top_k do_reverse).length
      = raw.alternatives.length + 1 := by
  unfold pipelinePreSort
  have h3 : ∀ l : List Candidate, (applyClusterAdj (cluster_adjustments dist l) l).length
      = l.length := by
    intro l
    unfold applyClusterAdj
    rw [List.length_map, List.enum_length]
  by_cases hdr : do_reverse = true
  · simp only [hdr, if_true]
    rw [mapFirstN_length, h3, mapFirstN_length, List.length_map, List.length_cons]
  · have hdr' : do_reverse = false := by
      simpa using hdr
    simp only [hdr', Bool.false_eq_true, if_false]
    rw [h3, List.length_map, List.length_cons]

/-- The boosted pipeline state has the same length as the raw candidate
list. -/
lemma pipelineBoosted_length (reverse : ℚ → ℚ → Option Place) (forward : ForwardGeo)
    (extract : Candidate → List String) (dist : ℚ → ℚ → ℚ → ℚ → ℚ)
    (raw : ModelOutput) (top_k : Nat) (do_reverse : Bool) :
    (pipelineBoosted reverse forward extract dist raw top_k do_reverse).length
      = raw.alternatives.length + 1 := by
  unfold pipelineBoosted consistency_boost_via_reverse_geocode
  have hlen : (sortByConfDesc
      (pipelinePreSort reverse forward extract dist raw top_k do_reverse)).length
      = raw.alternatives.length + 1 := by
    rw [(sortByConfDesc_perm _).length_eq,
      pipelinePreSort_length reverse forward extract dist raw top_k do_reverse]
  split
  · exact hlen
  · split
    · exact hlen
    · split
      · exact hlen
      · rw [List.length_map]
        exact hlen

/-- Rank reassignment preserves length. -/
lemma assignRanks_length (l : List Candidate) :
    (assignRanks l).length = l.length := by
  have := congrArg List.length (assignRanksAux_map_conf l 1)
  simpa [assignRanks] using this

/-- C2: for every model output, collaborator behaviour and `top_k ≥ 1`,
the finalized `top_k` list is sorted by descending confidence, its ranks
are the dense sequence 1..length assigned in sorted order, the primary
guess is exactly its first element, and both pipeline sorts are stable:
they preserve the input sublist of candidates at each exact confidence
value. -/
theorem rank_and_finalize_sorted_ranked (reverse : ℚ → ℚ → Option Place)
    (forward : ForwardGeo) (extract : Candidate → List String)
    (dist : ℚ → ℚ → ℚ → ℚ → ℚ) (image_path model_name : String)
    (raw : ModelOutput) (top_k : Nat) (do_reverse : Bool) (hk : 1 ≤ top_k) :
    ((rank_and_finalize reverse forward extract dist image_path model_name raw
        top_k do_reverse).top_k).Sorted confGE
    ∧ ((rank_and_finalize reverse forward extract dist image_path model_name raw
        top_k do_reverse).top_k).map Candidate.rank
      = (List.range' 1 ((rank_and_finalize reverse forward extract dist image_path
          model_name raw top_k do_reverse).top_k).length).map Int.ofNat
    ∧ ((rank_and_finalize reverse forward extract dist image_path model_name raw
        top_k do_reverse).top_k).head?
      = some ((rank_and_finalize reverse forward extract dist image_path model_name
          raw top_k do_reverse).primary_guess)
    ∧ (∀ q : ℚ,
        (sortByConfDesc (pipelineBoosted reverse forward extract dist raw top_k
            do_reverse)).filter (fun c => decide (c.confidence = q))
          = (pipelineBoosted reverse forward extract dist raw top_k
              do_reverse).filter (fun c => decide (c.confidence = q)))
    ∧ (∀ q : ℚ,
        (sortByConfDesc (pipelinePreSort reverse forward extract dist raw top_k
            do_reverse)).filter (fun c => decide (c.confidence = q))
          = (pipelinePreSort reverse forward extract dist raw top_k
              do_reverse).filter (fun c => decide (c.confidence = q))) := by
  have htop : (rank_and_finalize reverse forward extract dist image_path model_name
      raw top_k do_reverse).top_k
      = (step9_enrich reverse do_reverse (assignRanks (sortByConfDesc
          (pipelineBoosted reverse forward extract dist raw top_k
            do_reverse)))).take top_k := rfl
  have hpg : (rank_and_finalize reverse forward extract dist image_path model_name
      raw top_k do_reverse).primary_guess
      = ((step9_enrich reverse do_reverse (assignRanks (sortByConfDesc
          (pipelineBoosted reverse forward extract dist raw top_k
            do_reverse)))).take top_k).headD default := rfl
  have h7s : (sortByConfDesc (pipelineBoosted reverse forward extract dist raw
      top_k do_reverse)).Sorted confGE := sortByConfDesc_sorted _
  have h7in : ConfsIn01 (sortByConfDesc (pipelineBoosted reverse forward extract
      dist raw top_k do_reverse)) :=
    confsIn01_of_perm _ _ (sortByConfDesc_perm _).symm
      (pipelineBoosted_in01 reverse forward extract dist raw top_k do_reverse)
  have h8conf : (assignRanks (sortByConfDesc (pipelineBoosted reverse forward
      extract dist raw top_k do_reverse))).map Candidate.confidence
      = (sortByConfDesc (pipelineBoosted reverse forward extract dist raw top_k
          do_reverse)).map Candidate.confidence :=
    assignRanksAux_map_conf _ 1
  have h8s : (assignRanks (sortByConfDesc (pipelineBoosted reverse forward extract
      dist raw top_k do_reverse))).Sorted confGE :=
    sorted_of_map_conf_eq _ _ h8conf.symm h7s
  have h8in : ConfsIn01 (assignRanks (sortByConfDesc (pipelineBoosted reverse
      forward extract dist raw top_k do_reverse))) :=
    confsIn01_of_map_conf_eq _ _ h8conf.symm h7in
  have h9s : (step9_enrich reverse do_reverse (assignRanks (sortByConfDesc
      (pipelineBoosted reverse forward extract dist raw top_k
        do_reverse)))).Sorted confGE :=
    step9_sorted reverse do_reverse _ h8s h8in
  have h7len : (sortByConfDesc (pipelineBoosted reverse forward extract dist raw
      top_k do_reverse)).length = raw.alternatives.length + 1 := by
    rw [(sortByConfDesc_perm _).length_eq,
      pipelineBoosted_length reverse forward extract dist raw top_k do_reverse]
  have h9len : (step9_enrich reverse do_reverse (assignRanks (sortByConfDesc
      (pipelineBoosted reverse forward extract dist raw top_k
        do_reverse)))).length = raw.alternatives.length + 1 := by
    rw [step9_length, assignRanks_length, h7len]
  have h9rank : (step9_enrich reverse do_reverse (assignRanks (sortByConfDesc
      (pipelineBoosted reverse forward extract dist raw top_k
        do_reverse)))).map Candidate.rank
      = (List.range' 1 (raw.alternatives.length + 1)).map Int.ofNat := by
    rw [step9_map_rank]
    have := assignRanksAux_map_rank (sortByConfDesc (pipelineBoosted reverse
      forward extract dist raw top_k do_reverse)) 1
    rw [show assignRanks (sortByConfDesc (pipelineBoosted reverse forward extract
      dist raw top_k do_reverse)) = assignRanksAux 1 (sortByConfDesc
        (pipelineBoosted reverse forward extract dist raw top_k do_reverse))
      from rfl, this, h7len]
  refine ⟨?_, ?_, ?_, fun q => filter_sortByConfDesc q _,
    fun q => filter_sortByConfDesc q _⟩
  · rw [htop]
    exact h9s.sublist (List.take_sublist top_k _)
  · rw [htop, List.map_take, h9rank]
    rw [← List.map_take]
    rw [range'_take]
    rw [List.length_take, h9len, Nat.min_comm]
  · rw [htop, hpg]
    have hpos : 0 < ((step9_enrich reverse do_reverse (assignRanks (sortByConfDesc
        (pipelineBoosted reverse forward extract dist raw top_k
          do_reverse)))).take top_k).length := by
      rw [List.length_take, h9len]
      omega
    rcases htc : (step9_enrich reverse do_reverse (assignRanks (sortByConfDesc
        (pipelineBoosted reverse forward extract dist raw top_k
          do_reverse)))).take top_k with _ | ⟨a, t⟩
    · rw [htc] at hpos
      simp at hpos
    · rfl

/-- C2 witness: a concrete single-candidate finalization with `top_k = 1`. -/
theorem rank_and_finalize_sorted_ranked_witness :
    (1 : Nat) ≤ 1
    ∧ ((rank_and_finalize (fun _ _ => none) (fun _ _ _ _ _ => []) (fun _ => [])
        (fun _ _ _ _ => 0) "img" "model" ⟨exCand, []⟩ 1 false).top_k).Sorted confGE
    ∧ ((rank_and_finalize (fun _ _ => none) (fun _ _ _ _ _ => []) (fun _ => [])
        (fun _ _ _ _ => 0) "img" "model" ⟨exCand, []⟩ 1 false).top_k).head?
      = some ((rank_and_finalize (fun _ _ => none) (fun _ _ _ _ _ => [])
          (fun _ => []) (fun _ _ _ _ => 0) "img" "model" ⟨exCand, []⟩ 1
          false).primary_guess) :=
  ⟨by decide,
    (rank_and_finalize_sorted_ranked (fun _ _ => none) (fun _ _ _ _ _ => [])
      (fun _ => []) (fun _ _ _ _ => 0) "img" "model" ⟨exCand, []⟩ 1 false
      (by decide)).1,
    (rank_and_finalize_sorted_ranked (fun _ _ => none) (fun _ _ _ _ _ => [])
      (fun _ => []) (fun _ _ _ _ => 0) "img" "model" ⟨exCand, []⟩ 1 false
      (by decide)).2.2.1⟩

end GeoLocate
